import Mathlib

/-!
Verification of core components of the WestyFileMasterPRO2 file manager:
`SelectionManager` (multi-pane selection bookkeeping, `SelectionManager.py`),
`FileInfoCache` (LRU/TTL cache, `CacheManager.py`) and `BatchOperations`
(batch copy/move/delete/rename/chmod/compress, `BatchOperations.py`).

The Python code is shallowly embedded: Python dicts become association
lists that keep insertion order (new keys are appended at the end, as
CPython dicts and `OrderedDict` do), filesystem effects become explicit
oracle parameters describing what each `os.*`/`shutil.*` call would have
returned, and exceptions become `Except`/sum results.
-/

/-! ### SelectionManager (src/SelectionManager.py)

State: `selected_items` is a dict keyed by `(pane_id, path)` holding the
`file_info` dict of each selected entry, plus a running `total_size` and
the `current_pane` name.  `file_info.get('size', 0)` is modelled by an
optional `size` field read with default `0`. -/

structure FileInfo where
  name : String := ""
  size : Option Int := none
  full_path : Option String := none
  path : Option String := none
deriving DecidableEq, Repr

/-- `file_info.get('size', 0)`. -/
def getSizeD (info : FileInfo) : Int := info.size.getD 0

abbrev SelKey := String × String

structure SelectionManager where
  selected_items : List (SelKey × FileInfo)
  total_size : Int
  current_pane : String
deriving DecidableEq, Repr

/-- `SelectionManager.__init__`. -/
def initSelectionManager : SelectionManager :=
  { selected_items := [], total_size := 0, current_pane := "left" }

/-- `key in dict` / `dict[key]` on the insertion-ordered dict. -/
def dictLookup (k : SelKey) : List (SelKey × FileInfo) → Option FileInfo
  | [] => none
  | (k', v) :: rest => if k' = k then some v else dictLookup k rest

/-- Removing `key` from the insertion-ordered dict (`dict.pop(key)`). -/
def dictErase (k : SelKey) : List (SelKey × FileInfo) → List (SelKey × FileInfo)
  | [] => []
  | (k', v) :: rest => if k' = k then rest else (k', v) :: dictErase k rest

/-- `pane_id = self.current_pane if pane_id is None else pane_id`. -/
def resolvePane (m : SelectionManager) (pane_id : Option String) : String :=
  pane_id.getD m.current_pane

/-- Python truthiness of an optional string argument: `None` and `''` are
falsy, every non-empty string is truthy. -/
def strTruthy : Option String → Bool
  | none => false
  | some s => if s = "" then false else true

/-- `SelectionManager.select_item`: insert under `(pane_id, path)` unless
already selected; a new key is appended at the dict's end. -/
def select_item (m : SelectionManager) (path : String) (file_info : FileInfo)
    (pane_id : Option String) : SelectionManager × Bool :=
  let key : SelKey := (resolvePane m pane_id, path)
  match dictLookup key m.selected_items with
  | none =>
      ({ m with selected_items := m.selected_items ++ [(key, file_info)],
                total_size := m.total_size + getSizeD file_info }, true)
  | some _ => (m, false)

/-- `SelectionManager.deselect_item`: pop `(pane_id, path)` and subtract
its size, or return `False` when not selected. -/
def deselect_item (m : SelectionManager) (path : String)
    (pane_id : Option String) : SelectionManager × Bool :=
  let key : SelKey := (resolvePane m pane_id, path)
  match dictLookup key m.selected_items with
  | some info =>
      ({ m with selected_items := dictErase key m.selected_items,
                total_size := m.total_size - getSizeD info }, true)
  | none => (m, false)

/-- `SelectionManager.is_selected`. -/
def is_selected (m : SelectionManager) (path : String)
    (pane_id : Option String) : Bool :=
  (dictLookup (resolvePane m pane_id, path) m.selected_items).isSome

/-- `SelectionManager.toggle_selection`. -/
def toggle_selection (m : SelectionManager) (path : String) (file_info : FileInfo)
    (pane_id : Option String) : SelectionManager × Bool :=
  let pid := resolvePane m pane_id
  if is_selected m path (some pid) then deselect_item m path (some pid)
  else select_item m path file_info (some pid)

/-- `SelectionManager.get_selected_items`: `if pane_id:` filters by pane,
otherwise all values are returned. -/
def get_selected_items (m : SelectionManager) (pane_id : Option String) :
    List FileInfo :=
  if strTruthy pane_id then
    (m.selected_items.filter (fun e => pane_id == some e.1.1)).map (fun e => e.2)
  else
    m.selected_items.map (fun e => e.2)

/-- `SelectionManager.get_selected_paths`. -/
def get_selected_paths (m : SelectionManager) (pane_id : Option String) :
    List String :=
  if strTruthy pane_id then
    (m.selected_items.filter (fun e => pane_id == some e.1.1)).map (fun e => e.1.2)
  else
    m.selected_items.map (fun e => e.1.2)

/-- `SelectionManager.get_selection_count`. -/
def get_selection_count (m : SelectionManager) (pane_id : Option String) : Nat :=
  if strTruthy pane_id then
    (m.selected_items.filter (fun e => pane_id == some e.1.1)).length
  else
    m.selected_items.length

/-- `SelectionManager.get_total_size`. -/
def get_total_size (m : SelectionManager) : Int := m.total_size

/-- One `self.selected_items.pop(key)` with the size subtraction performed
by `clear_selection`'s per-key loop. -/
def popWithSize (m : SelectionManager) (k : SelKey) : SelectionManager :=
  match dictLookup k m.selected_items with
  | some info =>
      { m with selected_items := dictErase k m.selected_items,
               total_size := m.total_size - getSizeD info }
  | none => m

/-- `SelectionManager.clear_selection`: `if pane_id:` pops every key of
that pane subtracting each size; otherwise the dict is cleared and
`total_size` reset to `0`. -/
def clear_selection (m : SelectionManager) (pane_id : Option String) :
    SelectionManager :=
  if strTruthy pane_id then
    let keys_to_remove :=
      (m.selected_items.filter (fun e => pane_id == some e.1.1)).map (fun e => e.1)
    keys_to_remove.foldl popWithSize m
  else
    { m with selected_items := [], total_size := 0 }

/-- `SelectionManager.get_selection_details`. -/
def get_selection_details (m : SelectionManager) (pane_id : Option String) :
    List (SelKey × FileInfo) :=
  if strTruthy pane_id then
    m.selected_items.filter (fun e => pane_id == some e.1.1)
  else
    m.selected_items

/-- `item.get('full_path') or item.get('path')` — Python `or` keeps the
left operand when truthy. -/
def itemPath (info : FileInfo) : Option String :=
  if strTruthy info.full_path then info.full_path else info.path

/-- `SelectionManager.select_all_in_pane`. -/
def select_all_in_pane (m : SelectionManager) (file_list : List FileInfo)
    (pane_id : Option String) : SelectionManager × Nat :=
  let pid := resolvePane m pane_id
  file_list.foldl
    (fun acc item =>
      let p := itemPath item
      if strTruthy p && !(is_selected acc.1 (p.getD "") (some pid)) then
        ((select_item acc.1 (p.getD "") item (some pid)).1, acc.2 + 1)
      else acc)
    (m, 0)

/-- The operations named by the selection-size invariant claim. -/
inductive SelOp where
  | select (path : String) (info : FileInfo) (pane : Option String)
  | deselect (path : String) (pane : Option String)
  | toggle (path : String) (info : FileInfo) (pane : Option String)
  | selectAll (files : List FileInfo) (pane : Option String)
  | clear (pane : Option String)

def applySelOp (m : SelectionManager) : SelOp → SelectionManager
  | .select p i pn => (select_item m p i pn).1
  | .deselect p pn => (deselect_item m p pn).1
  | .toggle p i pn => (toggle_selection m p i pn).1
  | .selectAll fs pn => (select_all_in_pane m fs pn).1
  | .clear pn => clear_selection m pn

def runSelOps (m : SelectionManager) (ops : List SelOp) : SelectionManager :=
  ops.foldl applySelOp m

/-- Sum of the `size` fields of the entries of the selection dict. -/
def sumSizes (l : List (SelKey × FileInfo)) : Int :=
  (l.map (fun e => getSizeD e.2)).sum

theorem sumSizes_append (l l' : List (SelKey × FileInfo)) :
    sumSizes (l ++ l') = sumSizes l + sumSizes l' := by
  simp [sumSizes]

theorem sumSizes_cons (e : SelKey × FileInfo) (l : List (SelKey × FileInfo)) :
    sumSizes (e :: l) = getSizeD e.2 + sumSizes l := by
  simp [sumSizes]

theorem sumSizes_dictErase (k : SelKey) (info : FileInfo)
    (l : List (SelKey × FileInfo)) (h : dictLookup k l = some info) :
    sumSizes (dictErase k l) = sumSizes l - getSizeD info := by
  induction l with
  | nil => simp [dictLookup] at h
  | cons e rest ih =>
      obtain ⟨k1, v⟩ := e
      by_cases hk : k1 = k
      · simp [dictLookup, hk] at h
        simp [dictErase, hk, sumSizes_cons, h]
      · simp [dictLookup, hk] at h
        simp only [dictErase, hk, if_neg, ite_false, sumSizes_cons]
        rw [ih h]
        ring

def sizeInvariant (m : SelectionManager) : Prop :=
  m.total_size = sumSizes m.selected_items

theorem sizeInvariant_select (m : SelectionManager) (p : String) (i : FileInfo)
    (pn : Option String) (h : sizeInvariant m) :
    sizeInvariant (select_item m p i pn).1 := by
  unfold select_item
  cases hl : dictLookup (resolvePane m pn, p) m.selected_items with
  | none =>
      simp only [sizeInvariant] at h ⊢
      simp [hl, sumSizes_append, sumSizes, h]
  | some _ =>
      simp only [sizeInvariant] at h ⊢
      simp [hl, h]

theorem sizeInvariant_deselect (m : SelectionManager) (p : String)
    (pn : Option String) (h : sizeInvariant m) :
    sizeInvariant (deselect_item m p pn).1 := by
  unfold deselect_item
  cases hl : dictLookup (resolvePane m pn, p) m.selected_items with
  | none =>
      simp only [sizeInvariant] at h ⊢
      simp [hl, h]
  | some info =>
      simp only [sizeInvariant] at h ⊢
      simp [hl, sumSizes_dictErase _ _ _ hl, h]

theorem sizeInvariant_toggle (m : SelectionManager) (p : String) (i : FileInfo)
    (pn : Option String) (h : sizeInvariant m) :
    sizeInvariant (toggle_selection m p i pn).1 := by
  unfold toggle_selection
  by_cases hs : is_selected m p (some (resolvePane m pn))
  · simpa [hs] using sizeInvariant_deselect m p (some (resolvePane m pn)) h
  · simpa [hs] using sizeInvariant_select m p i (some (resolvePane m pn)) h

theorem sizeInvariant_popWithSize (m : SelectionManager) (k : SelKey)
    (h : sizeInvariant m) : sizeInvariant (popWithSize m k) := by
  unfold popWithSize
  cases hl : dictLookup k m.selected_items with
  | none =>
      simp only [sizeInvariant] at h ⊢
      simp [hl, h]
  | some info =>
      simp only [sizeInvariant] at h ⊢
      simp [hl, sumSizes_dictErase _ _ _ hl, h]

theorem sizeInvariant_popFold (ks : List SelKey) (m : SelectionManager)
    (h : sizeInvariant m) : sizeInvariant (ks.foldl popWithSize m) := by
  induction ks generalizing m with
  | nil => simpa using h
  | cons k rest ih => exact ih _ (sizeInvariant_popWithSize m k h)

theorem sizeInvariant_clear (m : SelectionManager) (pn : Option String)
    (h : sizeInvariant m) : sizeInvariant (clear_selection m pn) := by
  unfold clear_selection
  by_cases ht : strTruthy pn
  · simpa [ht] using sizeInvariant_popFold _ m h
  · simp [ht, sizeInvariant, sumSizes]

theorem sizeInvariant_selectAllStep (item : FileInfo) (pid : String)
    (acc : SelectionManager × Nat) (h : sizeInvariant acc.1) :
    sizeInvariant
      (if strTruthy (itemPath item) &&
          !(is_selected acc.1 ((itemPath item).getD "") (some pid)) then
        ((select_item acc.1 ((itemPath item).getD "") item (some pid)).1, acc.2 + 1)
      else acc).1 := by
  by_cases hc : strTruthy (itemPath item) &&
      !(is_selected acc.1 ((itemPath item).getD "") (some pid))
  · simpa [hc] using sizeInvariant_select acc.1 _ item (some pid) h
  · simpa [hc] using h

theorem sizeInvariant_selectAll (m : SelectionManager) (fs : List FileInfo)
    (pn : Option String) (h : sizeInvariant m) :
    sizeInvariant (select_all_in_pane m fs pn).1 := by
  unfold select_all_in_pane
  suffices H : ∀ (acc : SelectionManager × Nat), sizeInvariant acc.1 →
      sizeInvariant (fs.foldl
        (fun acc item =>
          let p := itemPath item
          if strTruthy p && !(is_selected acc.1 (p.getD "") (some (resolvePane m pn))) then
            ((select_item acc.1 (p.getD "") item (some (resolvePane m pn))).1, acc.2 + 1)
          else acc) acc).1 by
    exact H (m, 0) h
  induction fs with
  | nil => intro acc hacc; simpa using hacc
  | cons f rest ih =>
      intro acc hacc
      exact ih _ (sizeInvariant_selectAllStep f (resolvePane m pn) acc hacc)

theorem sizeInvariant_applySelOp (m : SelectionManager) (op : SelOp)
    (h : sizeInvariant m) : sizeInvariant (applySelOp m op) := by
  cases op with
  | select p i pn => exact sizeInvariant_select m p i pn h
  | deselect p pn => exact sizeInvariant_deselect m p pn h
  | toggle p i pn => exact sizeInvariant_toggle m p i pn h
  | selectAll fs pn => exact sizeInvariant_selectAll m fs pn h
  | clear pn => exact sizeInvariant_clear m pn h

theorem sizeInvariant_runSelOps (ops : List SelOp) (m : SelectionManager)
    (h : sizeInvariant m) : sizeInvariant (runSelOps m ops) := by
  induction ops generalizing m with
  | nil => simpa [runSelOps] using h
  | cons op rest ih =>
      simpa [runSelOps] using ih (applySelOp m op) (sizeInvariant_applySelOp m op h)

/-- C1: after any sequence of `select_item`, `deselect_item`,
`toggle_selection`, `select_all_in_pane` and `clear_selection` calls
starting from a fresh `SelectionManager`, `get_total_size` equals the sum
of the `size` fields of the entries currently in `selected_items`; in
particular each removal subtracted the removed entry's size exactly once. -/
theorem selection_total_size_invariant (ops : List SelOp) :
    get_total_size (runSelOps initSelectionManager ops) =
      sumSizes (runSelOps initSelectionManager ops).selected_items := by
  have hinit : sizeInvariant initSelectionManager := by
    simp [sizeInvariant, initSelectionManager, sumSizes]
  simpa [get_total_size, sizeInvariant] using
    sizeInvariant_runSelOps ops initSelectionManager hinit

/-- C8: `deselect_item` on a key that is not selected returns `False` and
leaves the whole state (both `selected_items` and `total_size`) unchanged,
and `select_item` on an already-selected key likewise returns `False` and
changes nothing. -/
theorem selection_noop_on_missing_keys (m : SelectionManager) (path : String)
    (pane : Option String) :
    (dictLookup (resolvePane m pane, path) m.selected_items = none →
        deselect_item m path pane = (m, false)) ∧
    (∀ info new_info,
        dictLookup (resolvePane m pane, path) m.selected_items = some info →
        select_item m path new_info pane = (m, false)) := by
  constructor
  · intro h
    unfold deselect_item
    simp [h]
  · intro info new_info h
    unfold select_item
    simp [h]

/-- A selection state with one entry in each pane, used as concrete input. -/
def selEx : SelectionManager :=
  { selected_items :=
      [(("left", "/a"), { name := "a", size := some 3 }),
       (("right", "/b"), { name := "b", size := some 5 })],
    total_size := 8, current_pane := "left" }

theorem selection_noop_on_missing_keys_witness :
    deselect_item initSelectionManager "/x" (some "left") =
      (initSelectionManager, false) ∧
    select_item selEx "/a" { name := "a2" } (some "left") = (selEx, false) := by
  constructor
  · exact (selection_noop_on_missing_keys initSelectionManager "/x" (some "left")).1
      (by rfl)
  · exact (selection_noop_on_missing_keys selEx "/a" (some "left")).2
      { name := "a", size := some 3 } { name := "a2" } (by rfl)

/-- C10: every pane-filtered query or mutation tests `pane_id` by Python
truthiness, so a falsy `pane_id` (`None` or `''`) selects the all-panes
behaviour: `get_selected_items`, `get_selected_paths`,
`get_selection_count` and `get_selection_details` return the data of every
pane, and `clear_selection` clears the selections of every pane. -/
theorem pane_filter_truthiness (m : SelectionManager) (pane : Option String)
    (h : strTruthy pane = false) :
    get_selected_items m pane = m.selected_items.map (fun e => e.2) ∧
    get_selected_paths m pane = m.selected_items.map (fun e => e.1.2) ∧
    get_selection_count m pane = m.selected_items.length ∧
    clear_selection m pane = { m with selected_items := [], total_size := 0 } ∧
    get_selection_details m pane = m.selected_items := by
  refine ⟨?_, ?_, ?_, ?_, ?_⟩ <;>
    simp [get_selected_items, get_selected_paths, get_selection_count,
      clear_selection, get_selection_details, h]

theorem pane_filter_truthiness_witness :
    get_selected_items selEx (some "") = selEx.selected_items.map (fun e => e.2) ∧
    get_selected_paths selEx (some "") = selEx.selected_items.map (fun e => e.1.2) ∧
    get_selection_count selEx (some "") = selEx.selected_items.length ∧
    clear_selection selEx (some "") =
      { selEx with selected_items := [], total_size := 0 } ∧
    get_selection_details selEx (some "") = selEx.selected_items :=
  pane_filter_truthiness selEx (some "") (by rfl)

/-! ### FileInfoCache (src/CacheManager.py)

The `OrderedDict` becomes an insertion-ordered association list whose
front is the oldest (least recently used) entry; `move_to_end` reinserts
at the back, `popitem(last=False)` drops the front.  `time.time()` values
and the `ttl` are modelled as integers; the cached value type `V` is a
parameter (the Python code caches arbitrary `getter_func` results). -/

variable {V : Type}

structure FileInfoCache (V : Type) where
  max_size : Nat
  ttl : Int
  cache : List (String × V × Int)
  hits : Nat
  misses : Nat
deriving DecidableEq, Repr

/-- `key in self.cache` / `self.cache[key]`. -/
def clookup (k : String) : List (String × V × Int) → Option (V × Int)
  | [] => none
  | (k', v) :: rest => if k' = k then some v else clookup k rest

/-- `del self.cache[key]` (first occurrence; dict keys are unique). -/
def cerase (k : String) : List (String × V × Int) → List (String × V × Int)
  | [] => []
  | (k', v) :: rest => if k' = k then rest else (k', v) :: cerase k rest

/-- `OrderedDict.move_to_end(key)`: reinsert the entry at the
most-recently-used end. -/
def moveToEnd (k : String) (c : List (String × V × Int)) :
    List (String × V × Int) :=
  match clookup k c with
  | some vt => cerase k c ++ [(k, vt.1, vt.2)]
  | none => c

/-- `FileInfoCache._add_to_cache`: delete a stale binding, append the new
entry at the most-recently-used end, and evict the least-recently-used
(front) entry when the bound is exceeded. -/
def addToCache (m : FileInfoCache V) (key : String) (value : V)
    (timestamp : Int) : FileInfoCache V :=
  let c1 := cerase key m.cache
  let c2 := c1 ++ [(key, value, timestamp)]
  { m with cache := if c2.length > m.max_size then c2.tail else c2 }

/-- `FileInfoCache.get`: cache hit when the entry's age is strictly below
`ttl` (move to end, count a hit); otherwise the stale entry is deleted and
`getter_func` is consulted, its result being cached. -/
def FileInfoCache.get (m : FileInfoCache V) (path : String)
    (getter : String → V) (now : Int) : V × FileInfoCache V :=
  match clookup path m.cache with
  | some vt =>
      if now - vt.2 < m.ttl then
        (vt.1, { m with cache := moveToEnd path m.cache, hits := m.hits + 1 })
      else
        let m1 := { m with cache := cerase path m.cache, misses := m.misses + 1 }
        let info := getter path
        (info, addToCache m1 path info now)
  | none =>
      let info := getter path
      (info, addToCache { m with misses := m.misses + 1 } path info now)

/-- Python `str.startswith`: character-wise prefix test. -/
def pyStartswith (s pre : String) : Bool := pre.data.isPrefixOf s.data

/-- `FileInfoCache.invalidate_directory`: collect every cached key that
starts with `dir_path` as a plain string, then delete each one. -/
def invalidate_directory (m : FileInfoCache V) (dir_path : String) :
    FileInfoCache V :=
  let to_remove :=
    (m.cache.map (fun e => e.1)).filter (fun k => pyStartswith k dir_path)
  { m with cache := to_remove.foldl (fun c k => cerase k c) m.cache }

theorem cerase_length_le (k : String) (c : List (String × V × Int)) :
    (cerase k c).length ≤ c.length := by
  induction c with
  | nil => simp [cerase]
  | cons e rest ih =>
      obtain ⟨k', v⟩ := e
      by_cases hk : k' = k
      · simp [cerase, hk]
      · simp only [cerase, hk, ite_false, List.length_cons]
        omega

theorem cerase_length_of_found (k : String) (vt : V × Int)
    (c : List (String × V × Int)) (h : clookup k c = some vt) :
    (cerase k c).length + 1 = c.length := by
  induction c with
  | nil => simp [clookup] at h
  | cons e rest ih =>
      obtain ⟨k', v⟩ := e
      by_cases hk : k' = k
      · simp [cerase, hk]
      · simp [clookup, hk] at h
        have := ih h
        simp only [cerase, hk, ite_false, List.length_cons]
        omega

theorem evict_length (c2 : List (String × V × Int)) (n : Nat)
    (h : c2.length ≤ n + 1) :
    (if c2.length > n then c2.tail else c2).length ≤ n := by
  by_cases h2 : c2.length > n
  · rw [if_pos h2]
    simp only [List.length_tail]
    omega
  · rw [if_neg h2]
    omega

theorem addToCache_length_le (m : FileInfoCache V) (k : String) (v : V)
    (t : Int) (h : m.cache.length ≤ m.max_size) :
    (addToCache m k v t).cache.length ≤ m.max_size := by
  have h1 := cerase_length_le k m.cache
  have h2 : (cerase k m.cache ++ [(k, v, t)]).length ≤ m.max_size + 1 := by
    simp only [List.length_append, List.length_cons, List.length_nil]
    omega
  simpa [addToCache] using
    evict_length (cerase k m.cache ++ [(k, v, t)]) m.max_size h2

theorem moveToEnd_length (k : String) (c : List (String × V × Int)) :
    (moveToEnd k c).length ≤ c.length := by
  unfold moveToEnd
  cases hl : clookup k c with
  | none => simp
  | some vt =>
      have := cerase_length_of_found k vt c hl
      simp only [List.length_append, List.length_cons, List.length_nil]
      omega

/-- C7: `FileInfoCache.get` is a move-to-end LRU with TTL checked on
read.  (a) On a cached key whose age is strictly below `ttl`, the cached
value is returned, `getter_func` is not consulted (the result does not
depend on it), and the key is moved to the most-recently-used end.
(b) On a cached key whose age is at least `ttl`, the stale entry is
deleted, `getter_func` is called and its result cached with the current
timestamp.  (c) Starting from a cache within its bound, any `get` leaves
at most `max_size` entries, the least-recently-used (front) entry being
evicted by `addToCache` when the bound would be exceeded. -/
theorem cache_get_lru_ttl (m : FileInfoCache V) (path : String)
    (getter : String → V) (now : Int) :
    (∀ vt, clookup path m.cache = some vt → now - vt.2 < m.ttl →
        FileInfoCache.get m path getter now =
          (vt.1, { m with cache := moveToEnd path m.cache, hits := m.hits + 1 })) ∧
    (∀ vt, clookup path m.cache = some vt → ¬(now - vt.2 < m.ttl) →
        FileInfoCache.get m path getter now =
          (getter path,
            addToCache
              { m with cache := cerase path m.cache, misses := m.misses + 1 }
              path (getter path) now)) ∧
    (m.cache.length ≤ m.max_size →
        (FileInfoCache.get m path getter now).2.cache.length ≤ m.max_size) := by
  refine ⟨?_, ?_, ?_⟩
  · intro vt hl hfresh
    unfold FileInfoCache.get
    simp [hl, hfresh]
  · intro vt hl hstale
    unfold FileInfoCache.get
    simp [hl, hstale]
  · intro hb
    unfold FileInfoCache.get
    cases hl : clookup path m.cache with
    | some vt =>
        by_cases hfresh : now - vt.2 < m.ttl
        · simp only [hl, hfresh, if_pos]
          exact le_trans (moveToEnd_length path m.cache) hb
        · simp only [hl, hfresh, if_neg, ite_false]
          exact addToCache_length_le _ path (getter path) now
            (le_trans (cerase_length_le path m.cache) hb)
    | none =>
        simp only [hl]
        exact addToCache_length_le _ path (getter path) now hb

/-- A two-entry `Nat`-valued cache at its capacity bound, used as concrete
input. -/
def cacheEx : FileInfoCache Nat :=
  { max_size := 2, ttl := 10,
    cache := [("/a", 1, 100), ("/b", 2, 105)], hits := 0, misses := 0 }

theorem cache_get_lru_ttl_witness :
    FileInfoCache.get cacheEx "/a" (fun _ => 7) 105 =
      (1, { cacheEx with cache := moveToEnd "/a" cacheEx.cache, hits := cacheEx.hits + 1 }) ∧
    FileInfoCache.get cacheEx "/a" (fun _ => 7) 115 =
      (7, addToCache { cacheEx with cache := cerase "/a" cacheEx.cache, misses := cacheEx.misses + 1 } "/a" 7 115) ∧
    (FileInfoCache.get cacheEx "/a" (fun _ => 7) 115).2.cache.length ≤
      cacheEx.max_size := by
  refine ⟨?_, ?_, ?_⟩
  · exact (cache_get_lru_ttl cacheEx "/a" (fun _ => 7) 105).1 (1, 100)
      (by rfl) (by decide)
  · exact (cache_get_lru_ttl cacheEx "/a" (fun _ => 7) 115).2.1 (1, 100)
      (by rfl) (by decide)
  · exact (cache_get_lru_ttl cacheEx "/a" (fun _ => 7) 115).2.2 (by decide)

theorem foldl_cerase_cons_of_ne (tr : List String) (k : String) (v : V × Int)
    (c : List (String × V × Int)) (h : ∀ k' ∈ tr, k' ≠ k) :
    tr.foldl (fun c k => cerase k c) ((k, v) :: c) =
      (k, v) :: tr.foldl (fun c k => cerase k c) c := by
  induction tr generalizing c with
  | nil => simp
  | cons k' rest ih =>
      have hk : k' ≠ k := h k' (by simp)
      have hcond : ¬(k = k') := fun hkk => hk hkk.symm
      have hstep : cerase k' ((k, v) :: c) = (k, v) :: cerase k' c := by
        simp [cerase, hcond]
      simp only [List.foldl_cons, hstep]
      exact ih _ (fun x hx => h x (by simp [hx]))

theorem foldl_cerase_filter (d : String) (c : List (String × V × Int)) :
    ((c.map (fun e => e.1)).filter (fun k => pyStartswith k d)).foldl
        (fun c k => cerase k c) c =
      c.filter (fun e => !(pyStartswith e.1 d)) := by
  induction c with
  | nil => simp
  | cons e rest ih =>
      obtain ⟨k, v⟩ := e
      by_cases hk : pyStartswith k d
      · have h1 : (((k, v) :: rest).map (fun e => e.1)).filter
            (fun k => pyStartswith k d) =
            k :: (rest.map (fun e => e.1)).filter (fun k => pyStartswith k d) := by
          simp [hk]
        have hhead : cerase k ((k, v) :: rest) = rest := by simp [cerase]
        rw [h1, List.foldl_cons, hhead, ih]
        simp [hk]
      · have hne : ∀ k' ∈ (rest.map (fun e => e.1)).filter
            (fun k => pyStartswith k d), k' ≠ k := by
          intro k' hk' heq
          rw [List.mem_filter] at hk'
          exact hk (heq ▸ hk'.2)
        have h1 : (((k, v) :: rest).map (fun e => e.1)).filter
            (fun k => pyStartswith k d) =
            (rest.map (fun e => e.1)).filter (fun k => pyStartswith k d) := by
          simp [hk]
        rw [h1, foldl_cerase_cons_of_ne _ k v rest hne, ih]
        simp [hk]

/-- C9: `invalidate_directory(dir_path)` removes exactly those cache
entries whose key starts with `dir_path` as a plain string; in
particular a sibling path that shares the prefix (key `/tmp/foobar/x`
with `dir_path` `/tmp/foo`) is also removed even though it is not inside
the directory. -/
theorem invalidate_directory_string_startswith (m : FileInfoCache V)
    (dir_path : String) :
    (invalidate_directory m dir_path).cache =
        m.cache.filter (fun e => !(pyStartswith e.1 dir_path)) ∧
    (invalidate_directory
        { max_size := 10, ttl := 10,
          cache := [("/tmp/foobar/x", (0 : Nat), 0), ("/tmp/foo/y", 0, 0)],
          hits := 0, misses := 0 } "/tmp/foo").cache = [] := by
  constructor
  · unfold invalidate_directory
    exact foldl_cerase_filter dir_path m.cache
  · decide


/-! ### BatchOperations (src/BatchOperations.py)

Result dictionaries are embedded as insertion-ordered association lists
`PyDict` (assignment updates in place, a new key is appended), so that
which keys a result contains is observable.  Filesystem effects are
oracle fields on the per-item records: `src_exists` is what
`os.path.exists(src)` returned, `steps` is the sequence of
`fsrc.read(65536)` results inside `_copy_file` (`Except.error` being an
IO exception raised by the read/write), `op_result` the outcome of the
single filesystem call of the item, and so on.  `self.cancel_requested`
is a function `flag : Nat → Bool` giving the value the flag holds at the
n-th `_check_cancel` poll of the call; raising `OperationCancelled` out
of the method is `Sum.inr` carrying the local results dict at that
point, normal return is `Sum.inl`.  `_copy_directory`'s internal polls
are abstracted into its overall `dir_result` outcome. -/

deriving instance DecidableEq for Except

/-- Entries appended to the result buckets by the batch methods. -/
inductive BEntry where
  | copyOk (path dest : String) (bytes : Nat)
  | moveOk (path dest : String)
  | delOk (path : String) (bytes_freed : Nat)
  | renameOk (old_path new_path : String)
  | chmodOk (path : String)
  | fail (path error : String)
  | failRename (old_path error : String)
  | failRenameExists (old_path new_name error : String)
  | skip (path reason : String)
deriving DecidableEq, Repr

/-- The `'path'` (resp. `'old_path'`) field of a bucket entry. -/
def entryPath : BEntry → String
  | .copyOk p _ _ => p
  | .moveOk p _ => p
  | .delOk p _ => p
  | .renameOk p _ => p
  | .chmodOk p => p
  | .fail p _ => p
  | .failRename p _ => p
  | .failRenameExists p _ _ => p
  | .skip p _ => p

/-- Values stored in a results dictionary. -/
inductive PyVal where
  | vlist (xs : List BEntry)
  | vnat (n : Nat)
  | vbool (b : Bool)
  | vstr (s : String)
deriving DecidableEq, Repr

/-- A Python dict with string keys, in insertion order. -/
abbrev PyDict := List (String × PyVal)

def dget (k : String) : PyDict → Option PyVal
  | [] => none
  | (k', v) :: rest => if k' = k then some v else dget k rest

/-- `d[k] = v`: update in place when the key exists, else append. -/
def dset (d : PyDict) (k : String) (v : PyVal) : PyDict :=
  match d with
  | [] => [(k, v)]
  | (k', v') :: rest => if k' = k then (k, v) :: rest else (k', v') :: dset rest k v

def hasKey (d : PyDict) (k : String) : Bool := (dget k d).isSome

/-- The bucket list stored under `k` (the batch methods only ever read
list-valued keys this way). -/
def dgetList (d : PyDict) (k : String) : List BEntry :=
  match dget k d with
  | some (.vlist xs) => xs
  | _ => []

def dgetNat (d : PyDict) (k : String) : Nat :=
  match dget k d with
  | some (.vnat n) => n
  | _ => 0

/-- `results[k].append(e)`. -/
def dappend (d : PyDict) (k : String) (e : BEntry) : PyDict :=
  dset d k (.vlist (dgetList d k ++ [e]))

/-- `results[k] += n`. -/
def dincr (d : PyDict) (k : String) (n : Nat) : PyDict :=
  dset d k (.vnat (dgetNat d k + n))

/-- `OperationCancelled`'s message. -/
def cancelMsg : String := "Operation cancelled by user"

/-- Oracle record for one `src_path` of `batch_copy`: `dest` is
`os.path.join(dest_dir, os.path.basename(src))`, `steps` the chunk reads
of `_copy_file`, `dir_result` the abstracted outcome of
`_copy_directory`. -/
structure CopyItem where
  path : String
  dest : String
  src_exists : Bool
  dest_exists : Bool
  is_dir : Bool
  steps : List (Except String Nat)
  dir_result : Except String Nat
deriving DecidableEq, Repr

/-- `_copy_file`'s copy loop: each iteration polls `_check_cancel` (index
`k`), then reads a chunk; the loop ends at the empty read.  Returns the
next poll index and either the bytes copied or the raised exception. -/
def copyFileC (flag : Nat → Bool) : List (Except String Nat) → Nat → Nat →
    Nat × Except String Nat
  | steps, k, b =>
    if flag k then (k + 1, Except.error cancelMsg)
    else
      match steps with
      | [] => (k + 1, Except.ok b)
      | Except.ok c :: rest => copyFileC flag rest (k + 1) (b + c)
      | Except.error e :: _ => (k + 1, Except.error e)

/-- Initial results dict of `batch_copy` (lines 93-99). -/
def initCopyResults (n : Nat) : PyDict :=
  [("success", .vlist []), ("failed", .vlist []), ("skipped", .vlist []),
   ("total", .vnat n), ("bytes_copied", .vnat 0)]

/-- The per-item loop of `batch_copy`: the top-of-loop `_check_cancel`
poll is outside the per-item `try`, so a `True` flag there escapes the
whole method; any exception inside the item body (including
`OperationCancelled` raised by a chunk poll inside `_copy_file`) is
caught and appends a `failed` entry. -/
def batchCopyLoop (flag : Nat → Bool) (overwrite : Bool) :
    List CopyItem → Nat → PyDict → PyDict ⊕ PyDict
  | [], _, acc => Sum.inl acc
  | item :: rest, k, acc =>
    if flag k then Sum.inr acc
    else
      if !item.src_exists then
        batchCopyLoop flag overwrite rest (k + 1)
          (dappend acc "failed" (.fail item.path "Source does not exist"))
      else if item.dest_exists && !overwrite then
        batchCopyLoop flag overwrite rest (k + 1)
          (dappend acc "skipped" (.skip item.path "File already exists"))
      else if item.is_dir then
        match item.dir_result with
        | Except.ok n =>
            batchCopyLoop flag overwrite rest (k + 1)
              (dappend (dincr acc "bytes_copied" n) "success"
                (.copyOk item.path item.dest n))
        | Except.error e =>
            batchCopyLoop flag overwrite rest (k + 1)
              (dappend acc "failed" (.fail item.path e))
      else
        match copyFileC flag item.steps (k + 1) 0 with
        | (k2, Except.ok n) =>
            batchCopyLoop flag overwrite rest k2
              (dappend (dincr acc "bytes_copied" n) "success"
                (.copyOk item.path item.dest n))
        | (k2, Except.error e) =>
            batchCopyLoop flag overwrite rest k2
              (dappend acc "failed" (.fail item.path e))

/-- `BatchOperations.batch_copy`.  `destOk` is the outcome of the
ensure-destination step (`os.path.exists(dest_dir)` /
`os.makedirs`). -/
def batch_copy (flag : Nat → Bool) (overwrite : Bool)
    (destOk : Except String Unit) (items : List CopyItem) : PyDict ⊕ PyDict :=
  match destOk with
  | Except.error e =>
      Sum.inl (("error", .vstr ("Cannot create destination directory: " ++ e)) ::
        initCopyResults items.length)
  | Except.ok _ => batchCopyLoop flag overwrite items 0 (initCopyResults items.length)

/-- Oracle record for one `src_path` of `batch_move`; `op_result` is the
combined outcome of the optional removal of an existing destination and
of `shutil.move`. -/
structure MoveItem where
  path : String
  dest : String
  src_exists : Bool
  dest_exists : Bool
  op_result : Except String Unit
deriving DecidableEq, Repr

/-- Initial results dict of `batch_move` (lines 245-250). -/
def initMoveResults (n : Nat) : PyDict :=
  [("success", .vlist []), ("failed", .vlist []), ("skipped", .vlist []),
   ("total", .vnat n)]

def batchMoveLoop (flag : Nat → Bool) (overwrite : Bool) :
    List MoveItem → Nat → PyDict → PyDict ⊕ PyDict
  | [], _, acc => Sum.inl acc
  | item :: rest, k, acc =>
    if flag k then Sum.inr acc
    else
      if !item.src_exists then
        batchMoveLoop flag overwrite rest (k + 1)
          (dappend acc "failed" (.fail item.path "Source does not exist"))
      else if item.dest_exists && !overwrite then
        batchMoveLoop flag overwrite rest (k + 1)
          (dappend acc "skipped" (.skip item.path "File already exists"))
      else
        match item.op_result with
        | Except.ok _ =>
            batchMoveLoop flag overwrite rest (k + 1)
              (dappend acc "success" (.moveOk item.path item.dest))
        | Except.error e =>
            batchMoveLoop flag overwrite rest (k + 1)
              (dappend acc "failed" (.fail item.path e))

/-- `BatchOperations.batch_move`. -/
def batch_move (flag : Nat → Bool) (overwrite : Bool)
    (destOk : Except String Unit) (items : List MoveItem) : PyDict ⊕ PyDict :=
  match destOk with
  | Except.error e =>
      Sum.inl (("error", .vstr ("Cannot create destination directory: " ++ e)) ::
        initMoveResults items.length)
  | Except.ok _ => batchMoveLoop flag overwrite items 0 (initMoveResults items.length)

/-- Oracle record for one path of `batch_delete`: `size` is the
`os.path.getsize` / `_get_directory_size` result, `op_result` the outcome
of the (secure) deletion. -/
structure DelItem where
  path : String
  path_exists : Bool
  size : Nat
  op_result : Except String Unit
deriving DecidableEq, Repr

/-- Initial results dict of `batch_delete` (lines 328-333): note there is
no `'skipped'` bucket. -/
def initDelResults (n : Nat) : PyDict :=
  [("success", .vlist []), ("failed", .vlist []), ("total", .vnat n),
   ("bytes_freed", .vnat 0)]

def batchDelLoop (flag : Nat → Bool) :
    List DelItem → Nat → PyDict → PyDict ⊕ PyDict
  | [], _, acc => Sum.inl acc
  | item :: rest, k, acc =>
    if flag k then Sum.inr acc
    else
      if !item.path_exists then
        batchDelLoop flag rest (k + 1)
          (dappend acc "failed" (.fail item.path "Path does not exist"))
      else
        match item.op_result with
        | Except.ok _ =>
            batchDelLoop flag rest (k + 1)
              (dincr (dappend acc "success" (.delOk item.path item.size))
                "bytes_freed" item.size)
        | Except.error e =>
            batchDelLoop flag rest (k + 1)
              (dappend acc "failed" (.fail item.path e))

/-- `BatchOperations.batch_delete` (the `secure`/`passes` arguments only
affect how `op_result` came about). -/
def batch_delete (flag : Nat → Bool) (items : List DelItem) : PyDict ⊕ PyDict :=
  batchDelLoop flag items 0 (initDelResults items.length)

/-- Oracle record for one entry of `batch_rename`'s `rename_list`:
`old_path`/`new_name` are the dict fields (possibly missing/None),
`pattern_result` what `_apply_pattern` produced when a pattern was given
(it depends on `datetime.now()`), `new_path` the joined destination and
`op_result` the `os.rename` outcome. -/
structure RenameItem where
  old_path : Option String
  new_name : Option String
  src_exists : Bool
  pattern_result : Option String
  new_path : String
  new_exists : Bool
  op_result : Except String Unit
deriving DecidableEq, Repr

/-- Initial results dict of `batch_rename` (lines 433-437): no
`'skipped'` bucket. -/
def initRenameResults (n : Nat) : PyDict :=
  [("success", .vlist []), ("failed", .vlist []), ("total", .vnat n)]

def batchRenameLoop (flag : Nat → Bool) (pattern : Option String) :
    List RenameItem → Nat → PyDict → PyDict ⊕ PyDict
  | [], _, acc => Sum.inl acc
  | item :: rest, k, acc =>
    if flag k then Sum.inr acc
    else
      if !(strTruthy item.old_path) || !(strTruthy item.new_name) then
        batchRenameLoop flag pattern rest (k + 1)
          (dappend acc "failed"
            (.failRename (item.old_path.getD "") "Missing old_path or new_name"))
      else if !item.src_exists then
        batchRenameLoop flag pattern rest (k + 1)
          (dappend acc "failed"
            (.failRename (item.old_path.getD "") "Source does not exist"))
      else
        let new_name :=
          match pattern with
          | some _ => item.pattern_result.getD ""
          | none => item.new_name.getD ""
        if item.new_exists then
          batchRenameLoop flag pattern rest (k + 1)
            (dappend acc "failed"
              (.failRenameExists (item.old_path.getD "") new_name
                "New name already exists"))
        else
          match item.op_result with
          | Except.ok _ =>
              batchRenameLoop flag pattern rest (k + 1)
                (dappend acc "success"
                  (.renameOk (item.old_path.getD "") item.new_path))
          | Except.error e =>
              batchRenameLoop flag pattern rest (k + 1)
                (dappend acc "failed" (.failRename (item.old_path.getD "") e))

/-- `BatchOperations.batch_rename`. -/
def batch_rename (flag : Nat → Bool) (pattern : Option String)
    (items : List RenameItem) : PyDict ⊕ PyDict :=
  batchRenameLoop flag pattern items 0 (initRenameResults items.length)

/-- Oracle record for one path of `batch_chmod`. -/
structure ChmodItem where
  path : String
  path_exists : Bool
  op_result : Except String Unit
deriving DecidableEq, Repr

/-- Initial results dict of `batch_chmod` (lines 532-536): no `'skipped'`
bucket. -/
def initChmodResults (n : Nat) : PyDict :=
  [("success", .vlist []), ("failed", .vlist []), ("total", .vnat n)]

def batchChmodLoop (flag : Nat → Bool) :
    List ChmodItem → Nat → PyDict → PyDict ⊕ PyDict
  | [], _, acc => Sum.inl acc
  | item :: rest, k, acc =>
    if flag k then Sum.inr acc
    else
      if !item.path_exists then
        batchChmodLoop flag rest (k + 1)
          (dappend acc "failed" (.fail item.path "Path does not exist"))
      else
        match item.op_result with
        | Except.ok _ =>
            batchChmodLoop flag rest (k + 1)
              (dappend acc "success" (.chmodOk item.path))
        | Except.error e =>
            batchChmodLoop flag rest (k + 1)
              (dappend acc "failed" (.fail item.path e))

/-- `BatchOperations.batch_chmod` (the `mode`/`recursive` arguments only
affect `op_result`; `_chmod_recursive` swallows its own errors). -/
def batch_chmod (flag : Nat → Bool) (items : List ChmodItem) : PyDict ⊕ PyDict :=
  batchChmodLoop flag items 0 (initChmodResults items.length)

/-- Oracle record for one `src_path` of `batch_compress`: `files` are the
sizes of the files the item contributes (`os.walk` for a directory, the
single file otherwise), `op_result` the archive-write outcome. -/
structure CompressItem where
  path : String
  path_exists : Bool
  is_dir : Bool
  files : List Nat
  op_result : Except String Unit
deriving DecidableEq, Repr

/-- Initial results dict of `batch_compress` (lines 595-601): `'success'`
is a boolean flag, there are no `'failed'`/`'skipped'` buckets. -/
def initCompressResults (archive_path fmt : String) : PyDict :=
  [("success", .vbool false), ("archive_path", .vstr archive_path),
   ("format", .vstr fmt), ("files_added", .vnat 0), ("total_size", .vnat 0)]

/-- The zip-branch loop: `_check_cancel` is inside the single big `try`,
so an exception escapes with the results updated so far
(`Except.error` carries the message and the dict at the raise). -/
def compressZipLoop (flag : Nat → Bool) :
    List CompressItem → Nat → PyDict → Except (String × PyDict) PyDict
  | [], _, acc => Except.ok acc
  | item :: rest, k, acc =>
    if flag k then Except.error (cancelMsg, acc)
    else
      if !item.path_exists then compressZipLoop flag rest (k + 1) acc
      else
        match item.op_result with
        | Except.ok _ =>
            compressZipLoop flag rest (k + 1)
              (dincr (dincr acc "files_added" item.files.length)
                "total_size" item.files.sum)
        | Except.error e => Except.error (e, acc)

/-- The tar-branch loop: one `tf.add` per item (`files_added += 1`),
`total_size` counts only plain files. -/
def compressTarLoop (flag : Nat → Bool) :
    List CompressItem → Nat → PyDict → Except (String × PyDict) PyDict
  | [], _, acc => Except.ok acc
  | item :: rest, k, acc =>
    if flag k then Except.error (cancelMsg, acc)
    else
      if !item.path_exists then compressTarLoop flag rest (k + 1) acc
      else
        match item.op_result with
        | Except.ok _ =>
            compressTarLoop flag rest (k + 1)
              (if !item.is_dir then
                 dincr (dincr acc "files_added" 1) "total_size" item.files.sum
               else dincr acc "files_added" 1)
        | Except.error e => Except.error (e, acc)

/-- `BatchOperations.batch_compress`: on success `results['success'] =
True` (also for an unknown format, whose loop never runs); the exception
handler sets `success = False` and adds an `'error'` key. -/
def batch_compress (flag : Nat → Bool) (fmt archive_path : String)
    (items : List CompressItem) : PyDict :=
  let init := initCompressResults archive_path fmt
  let body :=
    if fmt = "zip" then compressZipLoop flag items 0 init
    else if fmt = "tar" ∨ fmt = "gztar" ∨ fmt = "bztar" ∨ fmt = "xztar" then
      compressTarLoop flag items 0 init
    else Except.ok init
  match body with
  | Except.ok r => dset r "success" (.vbool true)
  | Except.error (e, r) => dset (dset r "success" (.vbool false)) "error" (.vstr e)

/-- The results dict a caller observes: `Sum.inl` on normal return,
`Sum.inr` the state of the local dict when `OperationCancelled`
escaped. -/
def resultsOf : PyDict ⊕ PyDict → PyDict
  | Sum.inl d => d
  | Sum.inr d => d

theorem dget_dset_same (d : PyDict) (k : String) (v : PyVal) :
    dget k (dset d k v) = some v := by
  induction d with
  | nil => simp [dset, dget]
  | cons e rest ih =>
      obtain ⟨k', v'⟩ := e
      by_cases hk : k' = k
      · simp [dset, dget, hk]
      · simp [dset, dget, hk, ih]

theorem dget_dset_ne (d : PyDict) (k : String) (v : PyVal) (k0 : String)
    (h : k0 ≠ k) : dget k0 (dset d k v) = dget k0 d := by
  have h2 : k ≠ k0 := Ne.symm h
  induction d with
  | nil => simp [dset, dget, h2]
  | cons e rest ih =>
      obtain ⟨k', v'⟩ := e
      by_cases hk : k' = k
      · subst hk
        simp [dset, dget, h2]
      · by_cases hk0 : k' = k0
        · subst hk0
          simp [dset, dget, hk]
        · simp [dset, dget, hk, hk0, ih]

theorem hasKey_dset_same (d : PyDict) (k : String) (v : PyVal) :
    hasKey (dset d k v) k = true := by
  simp [hasKey, dget_dset_same]

theorem hasKey_dset_true (d : PyDict) (k : String) (v : PyVal) (k0 : String)
    (h : hasKey d k0 = true) : hasKey (dset d k v) k0 = true := by
  by_cases hk : k0 = k
  · subst hk; exact hasKey_dset_same d k0 v
  · simpa [hasKey, dget_dset_ne d k v k0 hk] using h

theorem hasKey_dset_ne (d : PyDict) (k : String) (v : PyVal) (k0 : String)
    (h : k0 ≠ k) : hasKey (dset d k v) k0 = hasKey d k0 := by
  simp [hasKey, dget_dset_ne d k v k0 h]

theorem hasKey_dappend_true (d : PyDict) (k : String) (e : BEntry) (k0 : String)
    (h : hasKey d k0 = true) : hasKey (dappend d k e) k0 = true :=
  hasKey_dset_true d k _ k0 h

theorem hasKey_dappend_ne (d : PyDict) (k : String) (e : BEntry) (k0 : String)
    (h : k0 ≠ k) : hasKey (dappend d k e) k0 = hasKey d k0 :=
  hasKey_dset_ne d k _ k0 h

theorem hasKey_dincr_true (d : PyDict) (k : String) (n : Nat) (k0 : String)
    (h : hasKey d k0 = true) : hasKey (dincr d k n) k0 = true :=
  hasKey_dset_true d k _ k0 h

theorem hasKey_dincr_ne (d : PyDict) (k : String) (n : Nat) (k0 : String)
    (h : k0 ≠ k) : hasKey (dincr d k n) k0 = hasKey d k0 :=
  hasKey_dset_ne d k _ k0 h

/-- The key profile asserted for `batch_copy`/`batch_move` results. -/
def threeBuckets (d : PyDict) : Prop :=
  hasKey d "success" = true ∧ hasKey d "failed" = true ∧
    hasKey d "skipped" = true

/-- The key profile of `batch_delete`/`batch_rename`/`batch_chmod`
results: success and failed buckets, but no skipped bucket. -/
def twoBuckets (d : PyDict) : Prop :=
  hasKey d "success" = true ∧ hasKey d "failed" = true ∧
    hasKey d "skipped" = false

theorem threeBuckets_dappend (d : PyDict) (k : String) (e : BEntry)
    (h : threeBuckets d) : threeBuckets (dappend d k e) :=
  ⟨hasKey_dappend_true d k e _ h.1, hasKey_dappend_true d k e _ h.2.1,
   hasKey_dappend_true d k e _ h.2.2⟩

theorem threeBuckets_dincr (d : PyDict) (k : String) (n : Nat)
    (h : threeBuckets d) : threeBuckets (dincr d k n) :=
  ⟨hasKey_dincr_true d k n _ h.1, hasKey_dincr_true d k n _ h.2.1,
   hasKey_dincr_true d k n _ h.2.2⟩

theorem batchCopyLoop_threeBuckets (flag : Nat → Bool) (ow : Bool)
    (items : List CopyItem) : ∀ (k : Nat) (acc : PyDict), threeBuckets acc →
    threeBuckets (resultsOf (batchCopyLoop flag ow items k acc)) := by
  induction items with
  | nil => intro k acc h; simpa [batchCopyLoop, resultsOf] using h
  | cons item rest ih =>
      intro k acc h
      rw [batchCopyLoop]
      by_cases hf : flag k
      · simpa [hf, resultsOf] using h
      · simp only [hf, Bool.false_eq_true, if_false]
        by_cases h1 : !item.src_exists
        · simp only [h1, if_true]
          exact ih _ _ (threeBuckets_dappend acc _ _ h)
        · simp only [h1, Bool.false_eq_true, if_false]
          by_cases h2 : item.dest_exists && !ow
          · simp only [h2, if_true]
            exact ih _ _ (threeBuckets_dappend acc _ _ h)
          · simp only [h2, Bool.false_eq_true, if_false]
            by_cases h3 : item.is_dir
            · simp only [h3, if_true]
              cases item.dir_result with
              | ok n =>
                  exact ih _ _
                    (threeBuckets_dappend _ _ _ (threeBuckets_dincr acc _ _ h))
              | error e => exact ih _ _ (threeBuckets_dappend acc _ _ h)
            · simp only [h3, Bool.false_eq_true, if_false]
              cases hc : copyFileC flag item.steps (k + 1) 0 with
              | mk k2 r =>
                  cases r with
                  | ok n =>
                      exact ih _ _
                        (threeBuckets_dappend _ _ _ (threeBuckets_dincr acc _ _ h))
                  | error e => exact ih _ _ (threeBuckets_dappend acc _ _ h)

theorem twoBuckets_dappend (d : PyDict) (k : String) (e : BEntry)
    (hk : k ≠ "skipped") (h : twoBuckets d) : twoBuckets (dappend d k e) :=
  ⟨hasKey_dappend_true d k e _ h.1, hasKey_dappend_true d k e _ h.2.1,
   by rw [hasKey_dappend_ne d k e _ (Ne.symm hk)]; exact h.2.2⟩

theorem twoBuckets_dincr (d : PyDict) (k : String) (n : Nat)
    (hk : k ≠ "skipped") (h : twoBuckets d) : twoBuckets (dincr d k n) :=
  ⟨hasKey_dincr_true d k n _ h.1, hasKey_dincr_true d k n _ h.2.1,
   by rw [hasKey_dincr_ne d k n _ (Ne.symm hk)]; exact h.2.2⟩

theorem batchMoveLoop_threeBuckets (flag : Nat → Bool) (ow : Bool)
    (items : List MoveItem) : ∀ (k : Nat) (acc : PyDict), threeBuckets acc →
    threeBuckets (resultsOf (batchMoveLoop flag ow items k acc)) := by
  induction items with
  | nil => intro k acc h; simpa [batchMoveLoop, resultsOf] using h
  | cons item rest ih =>
      intro k acc h
      rw [batchMoveLoop]
      by_cases hf : flag k
      · simpa [hf, resultsOf] using h
      · simp only [hf, Bool.false_eq_true, if_false]
        by_cases h1 : !item.src_exists
        · simp only [h1, if_true]
          exact ih _ _ (threeBuckets_dappend acc _ _ h)
        · simp only [h1, Bool.false_eq_true, if_false]
          by_cases h2 : item.dest_exists && !ow
          · simp only [h2, if_true]
            exact ih _ _ (threeBuckets_dappend acc _ _ h)
          · simp only [h2, Bool.false_eq_true, if_false]
            cases item.op_result with
            | ok u => exact ih _ _ (threeBuckets_dappend acc _ _ h)
            | error e => exact ih _ _ (threeBuckets_dappend acc _ _ h)

theorem batchDelLoop_twoBuckets (flag : Nat → Bool) (items : List DelItem) :
    ∀ (k : Nat) (acc : PyDict), twoBuckets acc →
    twoBuckets (resultsOf (batchDelLoop flag items k acc)) := by
  induction items with
  | nil => intro k acc h; simpa [batchDelLoop, resultsOf] using h
  | cons item rest ih =>
      intro k acc h
      rw [batchDelLoop]
      by_cases hf : flag k
      · simpa [hf, resultsOf] using h
      · simp only [hf, Bool.false_eq_true, if_false]
        by_cases h1 : !item.path_exists
        · simp only [h1, if_true]
          exact ih _ _ (twoBuckets_dappend acc _ _ (by decide) h)
        · simp only [h1, Bool.false_eq_true, if_false]
          cases item.op_result with
          | ok u =>
              exact ih _ _ (twoBuckets_dincr _ _ _ (by decide)
                (twoBuckets_dappend acc _ _ (by decide) h))
          | error e => exact ih _ _ (twoBuckets_dappend acc _ _ (by decide) h)

theorem batchRenameLoop_twoBuckets (flag : Nat → Bool) (pattern : Option String)
    (items : List RenameItem) : ∀ (k : Nat) (acc : PyDict), twoBuckets acc →
    twoBuckets (resultsOf (batchRenameLoop flag pattern items k acc)) := by
  induction items with
  | nil => intro k acc h; simpa [batchRenameLoop, resultsOf] using h
  | cons item rest ih =>
      intro k acc h
      rw [batchRenameLoop.eq_def]
      by_cases hf : flag k
      · simpa [hf, resultsOf] using h
      · simp only [hf, Bool.false_eq_true, if_false]
        by_cases h1 : !(strTruthy item.old_path) || !(strTruthy item.new_name)
        · simp only [h1, if_true]
          exact ih _ _ (twoBuckets_dappend acc _ _ (by decide) h)
        · simp only [h1, Bool.false_eq_true, if_false]
          by_cases h2 : !item.src_exists
          · simp only [h2, if_true]
            exact ih _ _ (twoBuckets_dappend acc _ _ (by decide) h)
          · simp only [h2, Bool.false_eq_true, if_false]
            by_cases h3 : item.new_exists
            · simp only [h3, if_true]
              exact ih _ _ (twoBuckets_dappend acc _ _ (by decide) h)
            · simp only [h3, Bool.false_eq_true, if_false]
              cases item.op_result with
              | ok u => exact ih _ _ (twoBuckets_dappend acc _ _ (by decide) h)
              | error e =>
                  exact ih _ _ (twoBuckets_dappend acc _ _ (by decide) h)

theorem batchChmodLoop_twoBuckets (flag : Nat → Bool) (items : List ChmodItem) :
    ∀ (k : Nat) (acc : PyDict), twoBuckets acc →
    twoBuckets (resultsOf (batchChmodLoop flag items k acc)) := by
  induction items with
  | nil => intro k acc h; simpa [batchChmodLoop, resultsOf] using h
  | cons item rest ih =>
      intro k acc h
      rw [batchChmodLoop]
      by_cases hf : flag k
      · simpa [hf, resultsOf] using h
      · simp only [hf, Bool.false_eq_true, if_false]
        by_cases h1 : !item.path_exists
        · simp only [h1, if_true]
          exact ih _ _ (twoBuckets_dappend acc _ _ (by decide) h)
        · simp only [h1, Bool.false_eq_true, if_false]
          cases item.op_result with
          | ok u => exact ih _ _ (twoBuckets_dappend acc _ _ (by decide) h)
          | error e => exact ih _ _ (twoBuckets_dappend acc _ _ (by decide) h)

/-- Key profile of a `batch_compress` result: a boolean-flag `'success'`
key, no `'failed'` and no `'skipped'` bucket. -/
def compressProfile (d : PyDict) : Prop :=
  hasKey d "success" = true ∧ hasKey d "failed" = false ∧
    hasKey d "skipped" = false

theorem compressProfile_dincr (d : PyDict) (k : String) (n : Nat)
    (hk1 : k ≠ "failed") (hk2 : k ≠ "skipped") (h : compressProfile d) :
    compressProfile (dincr d k n) :=
  ⟨hasKey_dincr_true d k n _ h.1,
   by rw [hasKey_dincr_ne d k n _ (Ne.symm hk1)]; exact h.2.1,
   by rw [hasKey_dincr_ne d k n _ (Ne.symm hk2)]; exact h.2.2⟩

theorem compressZipLoop_profile (flag : Nat → Bool) (items : List CompressItem) :
    ∀ (k : Nat) (acc : PyDict), compressProfile acc →
    (∀ r, compressZipLoop flag items k acc = Except.ok r → compressProfile r) ∧
    (∀ e r, compressZipLoop flag items k acc = Except.error (e, r) →
      compressProfile r) := by
  induction items with
  | nil =>
      intro k acc h
      constructor
      · intro r hr
        simp [compressZipLoop] at hr
        exact hr ▸ h
      · intro e r hr
        simp [compressZipLoop] at hr
  | cons item rest ih =>
      intro k acc h
      rw [compressZipLoop]
      by_cases hf : flag k
      · simp only [hf, if_true]
        constructor
        · intro r hr; simp at hr
        · intro e r hr
          simp only [Except.error.injEq, Prod.mk.injEq] at hr
          exact hr.2 ▸ h
      · simp only [hf, Bool.false_eq_true, if_false]
        by_cases h1 : !item.path_exists
        · simp only [h1, if_true]
          exact ih _ _ h
        · simp only [h1, Bool.false_eq_true, if_false]
          cases item.op_result with
          | ok u =>
              exact ih _ _ (compressProfile_dincr _ _ _ (by decide) (by decide)
                (compressProfile_dincr _ _ _ (by decide) (by decide) h))
          | error e2 =>
              constructor
              · intro r hr; simp at hr
              · intro e r hr
                simp only [Except.error.injEq, Prod.mk.injEq] at hr
                exact hr.2 ▸ h

theorem compressTarLoop_profile (flag : Nat → Bool) (items : List CompressItem) :
    ∀ (k : Nat) (acc : PyDict), compressProfile acc →
    (∀ r, compressTarLoop flag items k acc = Except.ok r → compressProfile r) ∧
    (∀ e r, compressTarLoop flag items k acc = Except.error (e, r) →
      compressProfile r) := by
  induction items with
  | nil =>
      intro k acc h
      constructor
      · intro r hr
        simp [compressTarLoop] at hr
        exact hr ▸ h
      · intro e r hr
        simp [compressTarLoop] at hr
  | cons item rest ih =>
      intro k acc h
      rw [compressTarLoop]
      by_cases hf : flag k
      · simp only [hf, if_true]
        constructor
        · intro r hr; simp at hr
        · intro e r hr
          simp only [Except.error.injEq, Prod.mk.injEq] at hr
          exact hr.2 ▸ h
      · simp only [hf, Bool.false_eq_true, if_false]
        by_cases h1 : !item.path_exists
        · simp only [h1, if_true]
          exact ih _ _ h
        · simp only [h1, Bool.false_eq_true, if_false]
          cases item.op_result with
          | ok u =>
              by_cases h2 : !item.is_dir
              · simp only [h2, if_true]
                exact ih _ _ (compressProfile_dincr _ _ _ (by decide) (by decide)
                  (compressProfile_dincr _ _ _ (by decide) (by decide) h))
              · simp only [h2, Bool.false_eq_true, if_false]
                exact ih _ _ (compressProfile_dincr _ _ _ (by decide) (by decide) h)
          | error e2 =>
              constructor
              · intro r hr; simp at hr
              · intro e r hr
                simp only [Except.error.injEq, Prod.mk.injEq] at hr
                exact hr.2 ▸ h

theorem compressProfile_set_success (r : PyDict) (b : Bool)
    (h : compressProfile r) : compressProfile (dset r "success" (.vbool b)) :=
  ⟨hasKey_dset_same r "success" _,
   by rw [hasKey_dset_ne r _ _ _ (by decide)]; exact h.2.1,
   by rw [hasKey_dset_ne r _ _ _ (by decide)]; exact h.2.2⟩

theorem compressProfile_set_error (r : PyDict) (e : String)
    (h : compressProfile r) : compressProfile (dset r "error" (.vstr e)) :=
  ⟨hasKey_dset_true r _ _ _ h.1,
   by rw [hasKey_dset_ne r _ _ _ (by decide)]; exact h.2.1,
   by rw [hasKey_dset_ne r _ _ _ (by decide)]; exact h.2.2⟩

/-- C2 is refuted by `batch_delete`: its results dictionary has no
`'skipped'` bucket, already on a one-element input that deletes
successfully. -/
theorem batch_result_buckets_counterexample :
    hasKey
      (resultsOf (batch_delete (fun _ => false)
        [{ path := "/tmp/f", path_exists := true, size := 4,
           op_result := Except.ok () }]))
      "skipped" = false := by
  rfl

/-- C2 amended: `batch_copy` and `batch_move` results contain all three
buckets `'success'`, `'failed'` and `'skipped'`; `batch_delete`,
`batch_rename` and `batch_chmod` results contain `'success'` and
`'failed'` but no `'skipped'` bucket; and a `batch_compress` result has a
boolean `'success'` flag and neither a `'failed'` nor a `'skipped'`
bucket. -/
theorem batch_result_buckets_amended :
    (∀ flag ow destOk items,
      threeBuckets (resultsOf (batch_copy flag ow destOk items))) ∧
    (∀ flag ow destOk items,
      threeBuckets (resultsOf (batch_move flag ow destOk items))) ∧
    (∀ flag items, twoBuckets (resultsOf (batch_delete flag items))) ∧
    (∀ flag pattern items,
      twoBuckets (resultsOf (batch_rename flag pattern items))) ∧
    (∀ flag items, twoBuckets (resultsOf (batch_chmod flag items))) ∧
    (∀ flag fmt archive_path items,
      compressProfile (batch_compress flag fmt archive_path items)) := by
  refine ⟨?_, ?_, ?_, ?_, ?_, ?_⟩
  · intro flag ow destOk items
    cases destOk with
    | error e => exact ⟨rfl, rfl, rfl⟩
    | ok u =>
        exact batchCopyLoop_threeBuckets flag ow items 0 _ ⟨rfl, rfl, rfl⟩
  · intro flag ow destOk items
    cases destOk with
    | error e => exact ⟨rfl, rfl, rfl⟩
    | ok u =>
        exact batchMoveLoop_threeBuckets flag ow items 0 _ ⟨rfl, rfl, rfl⟩
  · intro flag items
    exact batchDelLoop_twoBuckets flag items 0 _ ⟨rfl, rfl, rfl⟩
  · intro flag pattern items
    exact batchRenameLoop_twoBuckets flag pattern items 0 _ ⟨rfl, rfl, rfl⟩
  · intro flag items
    exact batchChmodLoop_twoBuckets flag items 0 _ ⟨rfl, rfl, rfl⟩
  · intro flag fmt archive_path items
    unfold batch_compress
    have hinit : compressProfile (initCompressResults archive_path fmt) :=
      ⟨rfl, rfl, rfl⟩
    by_cases h1 : fmt = "zip"
    · simp only [h1, if_true]
      cases hz : compressZipLoop flag items 0 (initCompressResults archive_path "zip") with
      | ok r =>
          exact compressProfile_set_success r true
            ((compressZipLoop_profile flag items 0 _ (h1 ▸ hinit)).1 r hz)
      | error er =>
          obtain ⟨e, r⟩ := er
          exact compressProfile_set_error _ e (compressProfile_set_success r false
            ((compressZipLoop_profile flag items 0 _ (h1 ▸ hinit)).2 e r hz))
    · simp only [h1, if_false]
      by_cases h2 : fmt = "tar" ∨ fmt = "gztar" ∨ fmt = "bztar" ∨ fmt = "xztar"
      · simp only [h2, if_true]
        cases hz : compressTarLoop flag items 0 (initCompressResults archive_path fmt) with
        | ok r =>
            exact compressProfile_set_success r true
              ((compressTarLoop_profile flag items 0 _ hinit).1 r hz)
        | error er =>
            obtain ⟨e, r⟩ := er
            exact compressProfile_set_error _ e (compressProfile_set_success r false
              ((compressTarLoop_profile flag items 0 _ hinit).2 e r hz))
      · simp only [h2, if_false]
        exact compressProfile_set_success _ true hinit

theorem dgetList_dappend_same (d : PyDict) (k : String) (e : BEntry) :
    dgetList (dappend d k e) k = dgetList d k ++ [e] := by
  simp [dappend, dgetList, dget_dset_same]

theorem dgetList_dappend_ne (d : PyDict) (k : String) (e : BEntry) (k0 : String)
    (h : k0 ≠ k) : dgetList (dappend d k e) k0 = dgetList d k0 := by
  simp [dappend, dgetList, dget_dset_ne _ _ _ _ h]

theorem dgetList_dincr_ne (d : PyDict) (k : String) (n : Nat) (k0 : String)
    (h : k0 ≠ k) : dgetList (dincr d k n) k0 = dgetList d k0 := by
  simp [dincr, dgetList, dget_dset_ne _ _ _ _ h]

theorem dget_dappend_ne (d : PyDict) (k : String) (e : BEntry) (k0 : String)
    (h : k0 ≠ k) : dget k0 (dappend d k e) = dget k0 d :=
  dget_dset_ne d k _ k0 h

theorem dget_dincr_ne (d : PyDict) (k : String) (n : Nat) (k0 : String)
    (h : k0 ≠ k) : dget k0 (dincr d k n) = dget k0 d :=
  dget_dset_ne d k _ k0 h

/-- Total number of entries across the three buckets. -/
def bucketsLen (d : PyDict) : Nat :=
  (dgetList d "success").length + (dgetList d "failed").length +
    (dgetList d "skipped").length

/-- Number of bucket entries whose path field is `p`. -/
def bucketsCount (p : String) (d : PyDict) : Nat :=
  ((dgetList d "success").map entryPath).count p +
    ((dgetList d "failed").map entryPath).count p +
    ((dgetList d "skipped").map entryPath).count p

theorem bucketsLen_dappend_success (d : PyDict) (e : BEntry) :
    bucketsLen (dappend d "success" e) = bucketsLen d + 1 := by
  simp only [bucketsLen, dgetList_dappend_same,
    dgetList_dappend_ne d "success" e "failed" (by decide),
    dgetList_dappend_ne d "success" e "skipped" (by decide),
    List.length_append, List.length_cons, List.length_nil]
  omega

theorem bucketsLen_dappend_failed (d : PyDict) (e : BEntry) :
    bucketsLen (dappend d "failed" e) = bucketsLen d + 1 := by
  simp only [bucketsLen, dgetList_dappend_same,
    dgetList_dappend_ne d "failed" e "success" (by decide),
    dgetList_dappend_ne d "failed" e "skipped" (by decide),
    List.length_append, List.length_cons, List.length_nil]
  omega

theorem bucketsLen_dappend_skipped (d : PyDict) (e : BEntry) :
    bucketsLen (dappend d "skipped" e) = bucketsLen d + 1 := by
  simp only [bucketsLen, dgetList_dappend_same,
    dgetList_dappend_ne d "skipped" e "success" (by decide),
    dgetList_dappend_ne d "skipped" e "failed" (by decide),
    List.length_append, List.length_cons, List.length_nil]
  omega

theorem bucketsLen_dincr (d : PyDict) (k : String) (n : Nat)
    (h1 : "success" ≠ k) (h2 : "failed" ≠ k) (h3 : "skipped" ≠ k) :
    bucketsLen (dincr d k n) = bucketsLen d := by
  simp only [bucketsLen, dgetList_dincr_ne d k n _ h1,
    dgetList_dincr_ne d k n _ h2, dgetList_dincr_ne d k n _ h3]

theorem bucketsCount_dappend_success (p : String) (d : PyDict) (e : BEntry) :
    bucketsCount p (dappend d "success" e) =
      bucketsCount p d + (if entryPath e = p then 1 else 0) := by
  simp only [bucketsCount, dgetList_dappend_same,
    dgetList_dappend_ne d "success" e "failed" (by decide),
    dgetList_dappend_ne d "success" e "skipped" (by decide),
    List.map_append, List.count_append, List.map_cons, List.map_nil,
    List.count_cons, List.count_nil]
  by_cases hp : entryPath e = p <;> simp [hp] <;> omega

theorem bucketsCount_dappend_failed (p : String) (d : PyDict) (e : BEntry) :
    bucketsCount p (dappend d "failed" e) =
      bucketsCount p d + (if entryPath e = p then 1 else 0) := by
  simp only [bucketsCount, dgetList_dappend_same,
    dgetList_dappend_ne d "failed" e "success" (by decide),
    dgetList_dappend_ne d "failed" e "skipped" (by decide),
    List.map_append, List.count_append, List.map_cons, List.map_nil,
    List.count_cons, List.count_nil]
  by_cases hp : entryPath e = p <;> simp [hp] <;> omega

theorem bucketsCount_dappend_skipped (p : String) (d : PyDict) (e : BEntry) :
    bucketsCount p (dappend d "skipped" e) =
      bucketsCount p d + (if entryPath e = p then 1 else 0) := by
  simp only [bucketsCount, dgetList_dappend_same,
    dgetList_dappend_ne d "skipped" e "success" (by decide),
    dgetList_dappend_ne d "skipped" e "failed" (by decide),
    List.map_append, List.count_append, List.map_cons, List.map_nil,
    List.count_cons, List.count_nil]
  by_cases hp : entryPath e = p <;> simp [hp] <;> omega

theorem bucketsCount_dincr (p : String) (d : PyDict) (k : String) (n : Nat)
    (h1 : "success" ≠ k) (h2 : "failed" ≠ k) (h3 : "skipped" ≠ k) :
    bucketsCount p (dincr d k n) = bucketsCount p d := by
  simp only [bucketsCount, dgetList_dincr_ne d k n _ h1,
    dgetList_dincr_ne d k n _ h2, dgetList_dincr_ne d k n _ h3]

theorem batchCopyLoop_false_partition (ow : Bool) (items : List CopyItem) :
    ∀ (k : Nat) (acc : PyDict),
    ∃ r, batchCopyLoop (fun _ => false) ow items k acc = Sum.inl r ∧
      bucketsLen r = bucketsLen acc + items.length ∧
      (∀ p, bucketsCount p r =
        bucketsCount p acc + (items.map CopyItem.path).count p) ∧
      dget "total" r = dget "total" acc := by
  induction items with
  | nil =>
      intro k acc
      exact ⟨acc, rfl, by simp, by simp, rfl⟩
  | cons item rest ih =>
      intro k acc
      rw [batchCopyLoop]
      simp only [Bool.false_eq_true, if_false]
      by_cases h1 : !item.src_exists
      · simp only [h1, if_true]
        obtain ⟨r, hr, hlen, hcnt, htot⟩ := ih (k + 1)
          (dappend acc "failed" (.fail item.path "Source does not exist"))
        refine ⟨r, hr, ?_, ?_, ?_⟩
        · rw [hlen, bucketsLen_dappend_failed]
          simp [List.length_cons]; omega
        · intro p
          rw [hcnt p, bucketsCount_dappend_failed]
          simp [entryPath, List.count_cons]
          by_cases hp : item.path = p <;> simp [hp] <;> omega
        · rw [htot, dget_dappend_ne _ _ _ _ (by decide)]
      · simp only [h1, Bool.false_eq_true, if_false]
        by_cases h2 : item.dest_exists && !ow
        · simp only [h2, if_true]
          obtain ⟨r, hr, hlen, hcnt, htot⟩ := ih (k + 1)
            (dappend acc "skipped" (.skip item.path "File already exists"))
          refine ⟨r, hr, ?_, ?_, ?_⟩
          · rw [hlen, bucketsLen_dappend_skipped]
            simp [List.length_cons]; omega
          · intro p
            rw [hcnt p, bucketsCount_dappend_skipped]
            simp [entryPath, List.count_cons]
            by_cases hp : item.path = p <;> simp [hp] <;> omega
          · rw [htot, dget_dappend_ne _ _ _ _ (by decide)]
        · simp only [h2, Bool.false_eq_true, if_false]
          by_cases h3 : item.is_dir
          · simp only [h3, if_true]
            cases item.dir_result with
            | ok n =>
                obtain ⟨r, hr, hlen, hcnt, htot⟩ := ih (k + 1)
                  (dappend (dincr acc "bytes_copied" n) "success"
                    (.copyOk item.path item.dest n))
                refine ⟨r, hr, ?_, ?_, ?_⟩
                · rw [hlen, bucketsLen_dappend_success,
                    bucketsLen_dincr _ _ _ (by decide) (by decide) (by decide)]
                  simp [List.length_cons]; omega
                · intro p
                  rw [hcnt p, bucketsCount_dappend_success,
                    bucketsCount_dincr _ _ _ _ (by decide) (by decide) (by decide)]
                  simp [entryPath, List.count_cons]
                  by_cases hp : item.path = p <;> simp [hp] <;> omega
                · rw [htot, dget_dappend_ne _ _ _ _ (by decide),
                    dget_dincr_ne _ _ _ _ (by decide)]
            | error e =>
                obtain ⟨r, hr, hlen, hcnt, htot⟩ := ih (k + 1)
                  (dappend acc "failed" (.fail item.path e))
                refine ⟨r, hr, ?_, ?_, ?_⟩
                · rw [hlen, bucketsLen_dappend_failed]
                  simp [List.length_cons]; omega
                · intro p
                  rw [hcnt p, bucketsCount_dappend_failed]
                  simp [entryPath, List.count_cons]
                  by_cases hp : item.path = p <;> simp [hp] <;> omega
                · rw [htot, dget_dappend_ne _ _ _ _ (by decide)]
          · simp only [h3, Bool.false_eq_true, if_false]
            cases hc : copyFileC (fun _ => false) item.steps (k + 1) 0 with
            | mk k2 res =>
                cases res with
                | ok n =>
                    obtain ⟨r, hr, hlen, hcnt, htot⟩ := ih k2
                      (dappend (dincr acc "bytes_copied" n) "success"
                        (.copyOk item.path item.dest n))
                    refine ⟨r, hr, ?_, ?_, ?_⟩
                    · rw [hlen, bucketsLen_dappend_success,
                        bucketsLen_dincr _ _ _ (by decide) (by decide) (by decide)]
                      simp [List.length_cons]; omega
                    · intro p
                      rw [hcnt p, bucketsCount_dappend_success,
                        bucketsCount_dincr _ _ _ _ (by decide) (by decide) (by decide)]
                      simp [entryPath, List.count_cons]
                      by_cases hp : item.path = p <;> simp [hp] <;> omega
                    · rw [htot, dget_dappend_ne _ _ _ _ (by decide),
                        dget_dincr_ne _ _ _ _ (by decide)]
                | error e =>
                    obtain ⟨r, hr, hlen, hcnt, htot⟩ := ih k2
                      (dappend acc "failed" (.fail item.path e))
                    refine ⟨r, hr, ?_, ?_, ?_⟩
                    · rw [hlen, bucketsLen_dappend_failed]
                      simp [List.length_cons]; omega
                    · intro p
                      rw [hcnt p, bucketsCount_dappend_failed]
                      simp [entryPath, List.count_cons]
                      by_cases hp : item.path = p <;> simp [hp] <;> omega
                    · rw [htot, dget_dappend_ne _ _ _ _ (by decide)]

theorem batchMoveLoop_false_partition (ow : Bool) (items : List MoveItem) :
    ∀ (k : Nat) (acc : PyDict),
    ∃ r, batchMoveLoop (fun _ => false) ow items k acc = Sum.inl r ∧
      bucketsLen r = bucketsLen acc + items.length ∧
      (∀ p, bucketsCount p r =
        bucketsCount p acc + (items.map MoveItem.path).count p) ∧
      dget "total" r = dget "total" acc := by
  induction items with
  | nil =>
      intro k acc
      exact ⟨acc, rfl, by simp, by simp, rfl⟩
  | cons item rest ih =>
      intro k acc
      rw [batchMoveLoop]
      simp only [Bool.false_eq_true, if_false]
      by_cases h1 : !item.src_exists
      · simp only [h1, if_true]
        obtain ⟨r, hr, hlen, hcnt, htot⟩ := ih (k + 1)
          (dappend acc "failed" (.fail item.path "Source does not exist"))
        refine ⟨r, hr, ?_, ?_, ?_⟩
        · rw [hlen, bucketsLen_dappend_failed]
          simp [List.length_cons]; omega
        · intro p
          rw [hcnt p, bucketsCount_dappend_failed]
          simp [entryPath, List.count_cons]
          by_cases hp : item.path = p <;> simp [hp] <;> omega
        · rw [htot, dget_dappend_ne _ _ _ _ (by decide)]
      · simp only [h1, Bool.false_eq_true, if_false]
        by_cases h2 : item.dest_exists && !ow
        · simp only [h2, if_true]
          obtain ⟨r, hr, hlen, hcnt, htot⟩ := ih (k + 1)
            (dappend acc "skipped" (.skip item.path "File already exists"))
          refine ⟨r, hr, ?_, ?_, ?_⟩
          · rw [hlen, bucketsLen_dappend_skipped]
            simp [List.length_cons]; omega
          · intro p
            rw [hcnt p, bucketsCount_dappend_skipped]
            simp [entryPath, List.count_cons]
            by_cases hp : item.path = p <;> simp [hp] <;> omega
          · rw [htot, dget_dappend_ne _ _ _ _ (by decide)]
        · simp only [h2, Bool.false_eq_true, if_false]
          cases item.op_result with
          | ok u =>
              obtain ⟨r, hr, hlen, hcnt, htot⟩ := ih (k + 1)
                (dappend acc "success" (.moveOk item.path item.dest))
              refine ⟨r, hr, ?_, ?_, ?_⟩
              · rw [hlen, bucketsLen_dappend_success]
                simp [List.length_cons]; omega
              · intro p
                rw [hcnt p, bucketsCount_dappend_success]
                simp [entryPath, List.count_cons]
                by_cases hp : item.path = p <;> simp [hp] <;> omega
              · rw [htot, dget_dappend_ne _ _ _ _ (by decide)]
          | error e =>
              obtain ⟨r, hr, hlen, hcnt, htot⟩ := ih (k + 1)
                (dappend acc "failed" (.fail item.path e))
              refine ⟨r, hr, ?_, ?_, ?_⟩
              · rw [hlen, bucketsLen_dappend_failed]
                simp [List.length_cons]; omega
              · intro p
                rw [hcnt p, bucketsCount_dappend_failed]
                simp [entryPath, List.count_cons]
                by_cases hp : item.path = p <;> simp [hp] <;> omega
              · rw [htot, dget_dappend_ne _ _ _ _ (by decide)]

/-- C3: when no cancellation is requested (the flag stays `False`
throughout) and the destination directory exists or is created
successfully, `batch_copy` and `batch_move` return normally and each
source path contributes exactly one entry to exactly one of the
`success`/`failed`/`skipped` buckets: for every path the bucket entries
carrying it are as many as its occurrences in the input, and the three
bucket sizes add up to `results['total'] = len(source_paths)`. -/
theorem batch_copy_move_partition (ow : Bool) (citems : List CopyItem)
    (mitems : List MoveItem) :
    (∃ r, batch_copy (fun _ => false) ow (Except.ok ()) citems = Sum.inl r ∧
      bucketsLen r = citems.length ∧
      dget "total" r = some (.vnat citems.length) ∧
      ∀ p, bucketsCount p r = (citems.map CopyItem.path).count p) ∧
    (∃ r, batch_move (fun _ => false) ow (Except.ok ()) mitems = Sum.inl r ∧
      bucketsLen r = mitems.length ∧
      dget "total" r = some (.vnat mitems.length) ∧
      ∀ p, bucketsCount p r = (mitems.map MoveItem.path).count p) := by
  constructor
  · obtain ⟨r, hr, hlen, hcnt, htot⟩ :=
      batchCopyLoop_false_partition ow citems 0 (initCopyResults citems.length)
    refine ⟨r, hr, ?_, ?_, ?_⟩
    · rw [hlen]
      have : bucketsLen (initCopyResults citems.length) = 0 := rfl
      omega
    · rw [htot]; rfl
    · intro p
      rw [hcnt p]
      have : bucketsCount p (initCopyResults citems.length) = 0 := by
        simp [bucketsCount, initCopyResults, dgetList, dget]
      omega
  · obtain ⟨r, hr, hlen, hcnt, htot⟩ :=
      batchMoveLoop_false_partition ow mitems 0 (initMoveResults mitems.length)
    refine ⟨r, hr, ?_, ?_, ?_⟩
    · rw [hlen]
      have : bucketsLen (initMoveResults mitems.length) = 0 := rfl
      omega
    · rw [htot]; rfl
    · intro p
      rw [hcnt p]
      have : bucketsCount p (initMoveResults mitems.length) = 0 := by
        simp [bucketsCount, initMoveResults, dgetList, dget]
      omega

theorem copyFileC_allOk_error (flag : Nat → Bool)
    (steps : List (Except String Nat)) :
    ∀ (k b k2 : Nat) (e : String),
    (∀ s ∈ steps, ∃ c, s = Except.ok c) →
    copyFileC flag steps k b = (k2, Except.error e) →
    e = cancelMsg ∧ flag (k2 - 1) = true ∧ k ≤ k2 - 1 := by
  induction steps with
  | nil =>
      intro k b k2 e hs h
      rw [copyFileC] at h
      by_cases hf : flag k
      · simp only [hf, if_true, Prod.mk.injEq, Except.error.injEq] at h
        refine ⟨h.2.symm, ?_, ?_⟩
        · rw [← h.1]; simpa using hf
        · omega
      · simp [hf] at h
  | cons s rest ih =>
      intro k b k2 e hs h
      obtain ⟨c, hc⟩ := hs s (by simp)
      subst hc
      rw [copyFileC] at h
      by_cases hf : flag k
      · simp only [hf, if_true, Prod.mk.injEq, Except.error.injEq] at h
        refine ⟨h.2.symm, ?_, ?_⟩
        · rw [← h.1]; simpa using hf
        · omega
      · simp only [hf, Bool.false_eq_true, if_false] at h
        obtain ⟨he, hflag, hk⟩ :=
          ih (k + 1) (b + c) k2 e (fun x hx => hs x (by simp [hx])) h
        exact ⟨he, hflag, by omega⟩

/-- A flag that is set right after the very first `_check_cancel` poll:
`False` at poll 0, `True` from poll 1 on. -/
def c6Flag : Nat → Bool := fun n => decide (1 ≤ n)

/-- A single existing source file copied in one 64KB chunk of 5 bytes. -/
def c6Item : CopyItem :=
  { path := "f", dest := "/dest/f", src_exists := true, dest_exists := false,
    is_dir := false, steps := [Except.ok 5], dir_result := Except.ok 0 }

/-- C6 as stated is false: with the cancel flag raised right after the
first poll, the chunk-level poll inside `_copy_file` (poll index 1)
observes the flag and raises `OperationCancelled`, but that exception is
caught by `batch_copy`'s per-item `except Exception` handler, which then
appends a `failed` entry carrying the cancellation message — an entry
appended to a result bucket after the poll that observed the flag, which
the claim asserts cannot happen. -/
theorem batch_copy_cancellation_counterexample :
    c6Flag 0 = false ∧ c6Flag 1 = true ∧
    batch_copy c6Flag false (Except.ok ()) [c6Item] =
      Sum.inl
        [("success", .vlist []), ("failed", .vlist [.fail "f" cancelMsg]),
         ("skipped", .vlist []), ("total", .vnat 1),
         ("bytes_copied", .vnat 0)] := by
  refine ⟨rfl, rfl, ?_⟩
  rfl

/-- C6 amended: cancellation of `batch_copy` is cooperative, with one
nuance.  Once the flag is set (it is monotone: never cleared during the
call), the next top-of-loop poll raises `OperationCancelled` out of the
method, so no further item is processed and nothing more is appended.  A
chunk-level poll inside `_copy_file`, however, raises an
`OperationCancelled` that the per-item handler catches: exactly one
`failed` entry for the in-progress item is appended after that poll, and
the following top-of-loop poll then terminates the batch before any
further item. -/
theorem batch_copy_cancellation_amended (flag : Nat → Bool)
    (hmono : ∀ a b, a ≤ b → flag a = true → flag b = true)
    (ow : Bool) (k : Nat) (acc : PyDict) (item : CopyItem)
    (rest : List CopyItem) :
    (flag k = true → batchCopyLoop flag ow (item :: rest) k acc = Sum.inr acc) ∧
    (flag k = false → item.src_exists = true →
      (item.dest_exists && !ow) = false → item.is_dir = false →
      (∀ s ∈ item.steps, ∃ c, s = Except.ok c) →
      ∀ k2 e, copyFileC flag item.steps (k + 1) 0 = (k2, Except.error e) →
        batchCopyLoop flag ow (item :: rest) k acc =
          (match rest with
           | [] => Sum.inl (dappend acc "failed" (.fail item.path cancelMsg))
           | _ :: _ =>
               Sum.inr (dappend acc "failed" (.fail item.path cancelMsg)))) := by
  constructor
  · intro hf
    rw [batchCopyLoop]
    simp [hf]
  · intro hf hsrc hskip hdir hsteps k2 e hcopy
    obtain ⟨he, hflag, hk⟩ :=
      copyFileC_allOk_error flag item.steps (k + 1) 0 k2 e hsteps hcopy
    subst he
    rw [batchCopyLoop]
    simp only [hf, Bool.false_eq_true, if_false, hsrc, Bool.not_true, hskip,
      hdir, if_true, hcopy]
    have hk2 : flag k2 = true := hmono (k2 - 1) k2 (by omega) hflag
    cases rest with
    | nil => rfl
    | cons r rs =>
        rw [batchCopyLoop]
        simp [hk2]

theorem batch_copy_cancellation_amended_witness :
    batchCopyLoop c6Flag false (c6Item :: [c6Item]) 5 (initCopyResults 2) =
      Sum.inr (initCopyResults 2) ∧
    batchCopyLoop c6Flag false (c6Item :: [c6Item]) 0 (initCopyResults 2) =
      Sum.inr (dappend (initCopyResults 2) "failed" (.fail "f" cancelMsg)) := by
  have hmono : ∀ a b, a ≤ b → c6Flag a = true → c6Flag b = true := by
    intro a b hab ha
    simp only [c6Flag, decide_eq_true_eq] at ha ⊢
    omega
  constructor
  · exact (batch_copy_cancellation_amended c6Flag hmono false 5
      (initCopyResults 2) c6Item [c6Item]).1 (by decide)
  · have h := (batch_copy_cancellation_amended c6Flag hmono false 0
      (initCopyResults 2) c6Item [c6Item]).2 (by decide) (by decide) (by decide)
      (by decide)
      (by intro s hs; simp only [c6Item, List.mem_singleton] at hs; exact ⟨5, hs⟩)
      2 cancelMsg (by rfl)
    simpa using h

/-! ### Single-file copy content (C4) and secure delete (C5)

File contents are byte lists.  `_copy_file` (BatchOperations.py 166-200)
and `SmartDirectoryManager.copyFile` (Directories.py 330-411) run the
same loop: read 64KB chunks from the source and append them to the
freshly opened (`'wb'`, hence empty) destination.  The read loop is
embedded with a fuel argument equal to the source length, which bounds
the number of non-empty reads. -/

def chunkSize : Nat := 64 * 1024

/-- The successive `fsrc.read(65536)` results for a source of the given
content: each call takes the next (at most) 64KB, until the empty read. -/
def readChunks : Nat → List Nat → List (List Nat)
  | 0, _ => []
  | _, [] => []
  | fuel + 1, content =>
      content.take chunkSize :: readChunks fuel (content.drop chunkSize)

/-- The write loop shared by `_copy_file` and `copyFile`: the destination
starts empty, each chunk is appended (`fdst.write`) and counted
(`bytes_copied += len(chunk)`). -/
def copyFileBytes (src : List Nat) : List Nat × Nat :=
  (readChunks src.length src).foldl
    (fun acc chunk => (acc.1 ++ chunk, acc.2 + chunk.length)) ([], 0)

theorem readChunks_join (fuel : Nat) : ∀ (l : List Nat), l.length ≤ fuel →
    (readChunks fuel l).flatten = l := by
  induction fuel with
  | zero =>
      intro l hl
      have : l = [] := List.length_eq_zero.mp (Nat.le_zero.mp hl)
      simp [this, readChunks]
  | succ fuel ih =>
      intro l hl
      cases l with
      | nil => simp [readChunks]
      | cons a rest =>
          rw [readChunks]
          · have hlen : ((a :: rest).drop chunkSize).length ≤ fuel := by
              simp only [List.length_drop, List.length_cons]
              have : 0 < chunkSize := by decide
              simp only [List.length_cons] at hl
              omega
            simp only [List.flatten_cons, ih _ hlen, List.take_append_drop]
          · simp

theorem copyFileBytes_foldl (chunks : List (List Nat)) :
    ∀ (acc : List Nat × Nat),
    chunks.foldl (fun acc chunk => (acc.1 ++ chunk, acc.2 + chunk.length)) acc =
      (acc.1 ++ chunks.flatten, acc.2 + chunks.flatten.length) := by
  induction chunks with
  | nil => intro acc; simp
  | cons c rest ih =>
      intro acc
      rw [List.foldl_cons, ih]
      simp [List.length_append]
      omega

/-- `SmartDirectoryManager.copyFile`: returns `False` without copying
when the destination exists and `overwrite` is false; otherwise runs the
chunk loop, optionally compares source and destination checksums
(`chk` is `calculateChecksum`), and returns `True` with the written
content.  A failed verification removes the copy and raises. -/
def copyFile (chk : List Nat → Nat) (src : List Nat)
    (dest_exists overwrite verify : Bool) :
    Except String (Bool × Option (List Nat) × Nat) :=
  if dest_exists && !overwrite then Except.ok (false, none, 0)
  else
    let copied := copyFileBytes src
    if verify && !(chk src == chk copied.1) then
      Except.error "Checksum verification failed"
    else Except.ok (true, some copied.1, copied.2)

/-- C4: whenever a single-file copy runs to normal completion, the
destination content is byte-for-byte the source content and the reported
byte count is the source size: `_copy_file`'s loop yields exactly
`(src, len(src))`, and whenever `copyFile` returns `True` the written
destination equals the source with `len(src)` bytes copied (so its
size — and checksum — match the source's). -/
theorem copy_file_content_exact (src : List Nat) :
    copyFileBytes src = (src, src.length) ∧
    (∀ (chk : List Nat → Nat) (de ow vf : Bool) (dst : Option (List Nat))
        (n : Nat),
      copyFile chk src de ow vf = Except.ok (true, dst, n) →
      dst = some src ∧ n = src.length) := by
  have hbytes : copyFileBytes src = (src, src.length) := by
    unfold copyFileBytes
    rw [copyFileBytes_foldl]
    simp [readChunks_join src.length src (le_refl _)]
  refine ⟨hbytes, ?_⟩
  intro chk de ow vf dst n h
  unfold copyFile at h
  by_cases h1 : de && !ow
  · simp [h1] at h
  · simp only [h1, Bool.false_eq_true, if_false] at h
    by_cases h2 : vf && !(chk src == chk (copyFileBytes src).1)
    · simp [h2] at h
    · simp only [h2, Bool.false_eq_true, if_false, Except.ok.injEq,
        Prod.mk.injEq] at h
      rw [hbytes] at h
      exact ⟨h.2.1.symm, h.2.2.symm⟩

theorem copy_file_content_exact_witness :
    copyFileBytes [10, 20, 30] = ([10, 20, 30], 3) ∧
    (some [10, 20, 30] = some [10, 20, 30] ∧ 3 = 3) := by
  constructor
  · exact (copy_file_content_exact [10, 20, 30]).1
  · exact (copy_file_content_exact [10, 20, 30]).2 (fun _ => 0) false false false
      (some [10, 20, 30]) 3 (by rfl)

/-- A writable file handle: a write position and the logical content.
Opening with `'wb'` truncates, so `_secure_delete_file` starts from an
empty content. -/
structure FileH where
  pos : Nat
  content : List Nat
deriving DecidableEq, Repr

/-- `f.write(data)`: overwrite `data.length` bytes at the current
position (extending the file as needed) and advance the position. -/
def fwrite (f : FileH) (data : List Nat) : FileH :=
  { pos := f.pos + data.length,
    content := f.content.take f.pos ++ data ++
      f.content.drop (f.pos + data.length) }

/-- `f.seek(0)`. -/
def fseek0 (f : FileH) : FileH := { f with pos := 0 }

/-- `bytes([random.randint(0, 255) for _ in range(n)])`, with the random
source modelled as a byte stream `rng` read from index `r` on. -/
def secureChunk (rng : Nat → Nat) (r n : Nat) : List Nat :=
  (List.range n).map (fun i => rng (r + i))

/-- The `while remaining > 0` chunk-write loop of `_secure_delete_file`
(one pass): writes `min(64KB, remaining)` random bytes per iteration.
The fuel bounds the iterations (each consumes at least one byte). -/
def passLoop (rng : Nat → Nat) : Nat → Nat → FileH → Nat → FileH × Nat
  | _, r, f, 0 => (f, r)
  | 0, r, f, _ + 1 => (f, r)
  | fuel + 1, r, f, rem + 1 =>
      let n := min chunkSize (rem + 1)
      passLoop rng fuel (r + n) (fwrite f (secureChunk rng r n)) (rem + 1 - n)

/-- The outcome of `_secure_delete_file`: per-pass `(start offset, bytes
written)` pairs, the content just before `os.remove`, and whether the
file was removed. -/
structure SecureDeleteRun where
  trace : List (Nat × Nat)
  content : List Nat
  removed : Bool
deriving DecidableEq, Repr

/-- One iteration of `for pass_num in range(passes)`: `f.seek(0)` then a
full chunk-write pass of `file_size` bytes, recording the pass's start
offset and byte count. -/
def securePassStep (rng : Nat → Nat) (file_size : Nat)
    (acc : FileH × Nat × List (Nat × Nat)) (_pass_num : Nat) :
    FileH × Nat × List (Nat × Nat) :=
  let f1 := fseek0 acc.1
  let fr := passLoop rng file_size acc.2.1 f1 file_size
  (fr.1, fr.2, acc.2.2 ++ [(f1.pos, fr.1.pos - f1.pos)])

/-- `BatchOperations._secure_delete_file`: record `file_size`, open
`'wb'` (content truncated to empty), run `passes` overwrite passes, then
`os.remove`. -/
def secure_delete_file (rng : Nat → Nat) (file_size passes : Nat) :
    SecureDeleteRun :=
  let res := (List.range passes).foldl (securePassStep rng file_size)
    ({ pos := 0, content := [] }, 0, [])
  { trace := res.2.2, content := res.1.content, removed := true }

theorem secureChunk_length (rng : Nat → Nat) (r n : Nat) :
    (secureChunk rng r n).length = n := by
  simp [secureChunk]

theorem fwrite_spec (f : FileH) (d : List Nat) (h : f.pos ≤ f.content.length) :
    (fwrite f d).pos = f.pos + d.length ∧
    (fwrite f d).content.length =
      f.pos + d.length + (f.content.length - (f.pos + d.length)) := by
  constructor
  · rfl
  · simp only [fwrite, List.length_append, List.length_take, List.length_drop,
      Nat.min_eq_left h]

theorem passLoop_spec (rng : Nat → Nat) : ∀ (fuel : Nat) (rem r : Nat)
    (f : FileH), rem ≤ fuel → f.pos ≤ f.content.length →
    f.content.length ≤ f.pos + rem →
    (passLoop rng fuel r f rem).1.pos = f.pos + rem ∧
    (passLoop rng fuel r f rem).1.content.length = f.pos + rem ∧
    (passLoop rng fuel r f rem).2 = r + rem := by
  intro fuel
  induction fuel with
  | zero =>
      intro rem r f hfuel h1 h2
      have : rem = 0 := Nat.le_zero.mp hfuel
      subst this
      refine ⟨by simp [passLoop], ?_, by simp [passLoop]⟩
      simp only [passLoop]
      omega
  | succ fuel ih =>
      intro rem r f hfuel h1 h2
      cases rem with
      | zero =>
          refine ⟨by simp [passLoop], ?_, by simp [passLoop]⟩
          simp only [passLoop]
          omega
      | succ rem =>
          rw [passLoop]
          have hn1 : 1 ≤ min chunkSize (rem + 1) := by
            have : 0 < chunkSize := by decide
            omega
          have hn2 : min chunkSize (rem + 1) ≤ rem + 1 := Nat.min_le_right _ _
          obtain ⟨hwpos, hwlen⟩ :=
            fwrite_spec f (secureChunk rng r (min chunkSize (rem + 1))) h1
          rw [secureChunk_length] at hwpos hwlen
          have hrec := ih (rem + 1 - min chunkSize (rem + 1))
            (r + min chunkSize (rem + 1))
            (fwrite f (secureChunk rng r (min chunkSize (rem + 1))))
            (by omega) (by omega) (by omega)
          obtain ⟨ha, hb, hc⟩ := hrec
          refine ⟨?_, ?_, ?_⟩
          · rw [ha, hwpos]; omega
          · rw [hb, hwpos]; omega
          · rw [hc]; omega

theorem secure_fold_spec (rng : Nat → Nat) (file_size : Nat) :
    ∀ (passes : Nat),
    ((List.range passes).foldl (securePassStep rng file_size)
        ({ pos := 0, content := [] }, 0, [])).1.pos ≤
      ((List.range passes).foldl (securePassStep rng file_size)
        ({ pos := 0, content := [] }, 0, [])).1.content.length ∧
    ((List.range passes).foldl (securePassStep rng file_size)
        ({ pos := 0, content := [] }, 0, [])).1.content.length ≤ file_size ∧
    ((List.range passes).foldl (securePassStep rng file_size)
        ({ pos := 0, content := [] }, 0, [])).2.2.length = passes ∧
    (∀ t ∈ ((List.range passes).foldl (securePassStep rng file_size)
        ({ pos := 0, content := [] }, 0, [])).2.2, t = (0, file_size)) ∧
    (1 ≤ passes →
      ((List.range passes).foldl (securePassStep rng file_size)
        ({ pos := 0, content := [] }, 0, [])).1.content.length = file_size) := by
  intro passes
  induction passes with
  | zero => simp
  | succ p ih =>
      obtain ⟨ih1, ih2, ih3, ih4, ih5⟩ := ih
      rw [List.range_succ, List.foldl_append, List.foldl_cons, List.foldl_nil]
      set st := (List.range p).foldl (securePassStep rng file_size)
        ({ pos := 0, content := [] }, 0, []) with hst
      have hseek1 : (fseek0 st.1).pos = 0 := rfl
      have hseek2 : (fseek0 st.1).content = st.1.content := rfl
      have hpl := passLoop_spec rng file_size file_size st.2.1 (fseek0 st.1)
        (le_refl _) (by rw [hseek1]; omega) (by rw [hseek1, hseek2]; omega)
      obtain ⟨hp1, hp2, hp3⟩ := hpl
      refine ⟨?_, ?_, ?_, ?_, ?_⟩
      · simp only [securePassStep]
        rw [hp1, hp2, hseek1]
      · simp only [securePassStep]
        rw [hp2, hseek1]
        omega
      · simp only [securePassStep, List.length_append, List.length_cons,
          List.length_nil]
        omega
      · simp only [securePassStep]
        intro t ht
        rw [List.mem_append] at ht
        cases ht with
        | inl h => exact ih4 t h
        | inr h =>
            simp only [List.mem_singleton] at h
            rw [h, hseek1, hp1, hseek1]
            simp
      · intro hge
        simp only [securePassStep]
        rw [hp2, hseek1]
        omega

/-- C5: for any file size and any `passes = P ≥ 1`,
`_secure_delete_file` performs exactly `P` overwrite passes, each seeking
to offset 0 and writing exactly `file_size` (the size recorded before
opening) random bytes, leaves a content of `file_size` random bytes just
before removal, and only afterwards removes the file, which therefore no
longer exists on normal return. -/
theorem secure_delete_overwrites (rng : Nat → Nat) (file_size passes : Nat)
    (hp : 1 ≤ passes) :
    (secure_delete_file rng file_size passes).removed = true ∧
    (secure_delete_file rng file_size passes).trace.length = passes ∧
    (∀ t ∈ (secure_delete_file rng file_size passes).trace,
      t = (0, file_size)) ∧
    (secure_delete_file rng file_size passes).content.length = file_size := by
  obtain ⟨h1, h2, h3, h4, h5⟩ := secure_fold_spec rng file_size passes
  exact ⟨rfl, h3, h4, h5 hp⟩

theorem secure_delete_overwrites_witness :
    (secure_delete_file (fun _ => 0) 3 2).removed = true ∧
    (secure_delete_file (fun _ => 0) 3 2).trace.length = 2 ∧
    (∀ t ∈ (secure_delete_file (fun _ => 0) 3 2).trace, t = (0, 3)) ∧
    (secure_delete_file (fun _ => 0) 3 2).content.length = 3 :=
  secure_delete_overwrites (fun _ => 0) 3 2 (by decide)
